import Mathlib

/-!
Verification of the staging core of the runbot merge queue
(`runbot_merge/models/stagings_create.py`).

The development shallowly embeds the source file's data model and
operations:

* `Msg` — the commit-message model (`Message.from_message`, `Message.__str__`,
  the `BREAK`/`SETEX_UNDERLINE`/`HEADER` regexes);
* `Sel` — the ready-set selector (`ready_prs` grouping, `try_staging`);
* `BatchLevel` — the per-batch staging loop `stage_batch` with its
  rollback handler, abstracted over the outcome of each per-PR staging;
* `StageLevel` — the merge-strategy engine `stage` and the four strategy
  functions (`stage_squash`, `stage_rebase_ff`, `stage_rebase_merge`,
  `stage_merge`), plus the `stage_batches` error handler;
* `Vis` — the visibility verifier (`check_visibility`, `parse_refs_smart`)
  and its bounded-retry caller.

External collaborators (the github proxy, the PR store, the canonical
merge-message builder) are passed in as explicit parameters, mirroring the
spec's interface boundary.
-/

namespace Runbot

/-! ## Python string primitives

Character-level models of the Python string operations the source relies
on: `str.splitlines`, `'\n'.join`, `str.strip`, `str.capitalize`,
`str.lower`.
-/

/-- Python whitespace characters recognised by `str.strip` (ASCII range). -/
def isPyWS (c : Char) : Bool :=
  c = ' ' || c = '\t' || c = '\n' || c = '\r' || c = '\x0b' || c = '\x0c'

/-- Helper for `pySplitlinesC`: accumulates the current line (reversed) while
scanning; at the end of input a pending nonempty line is emitted, a pending
empty one is not (Python drops the fragment after a trailing newline). -/
def slAux : List Char → List Char → List (List Char)
  | cur, [] => if cur = [] then [] else [cur.reverse]
  | cur, c :: rest =>
    if c = '\n' then cur.reverse :: slAux [] rest else slAux (c :: cur) rest

/-- Python `str.splitlines` restricted to `'\n'` terminators, at the
character-list level. -/
def pySplitlinesC (s : List Char) : List (List Char) := slAux [] s

/-- Python `'\n'.join` at the character-list level. -/
def joinNLC : List (List Char) → List Char
  | [] => []
  | [l] => l
  | l :: ls => l ++ '\n' :: joinNLC ls

/-- Python `str.strip()` (both ends) at the character-list level. -/
def pyStripC (cs : List Char) : List Char :=
  ((cs.dropWhile isPyWS).reverse.dropWhile isPyWS).reverse

/-- String-level `str.splitlines`. -/
def pySplitlines (s : String) : List String :=
  (pySplitlinesC s.data).map String.mk

/-- String-level `'\n'.join`. -/
def joinNL (ls : List String) : String :=
  String.mk (joinNLC (ls.map String.data))

/-- String-level `str.strip()`. -/
def pyStrip (s : String) : String := String.mk (pyStripC s.data)

/-- Python `str.lower` (ASCII). -/
def pyLower (s : String) : String := String.mk (s.data.map Char.toLower)

/-- Python `str.capitalize` (ASCII): first character uppercased, the rest
lowercased. -/
def pyCapitalize (s : String) : String :=
  match s.data with
  | [] => ""
  | c :: cs => String.mk (c.toUpper :: cs.map Char.toLower)

end Runbot

namespace Runbot.Msg

/-! ## Commit Message Model

Embedding of the `Message` class and the `BREAK`, `SETEX_UNDERLINE` and
`HEADER` regular expressions of `stagings_create.py`.
-/

/-- Characters admitted in a trailer key by `HEADER = ([A-Za-z-]+): (.*)`
(code points of `A`–`Z`, `a`–`z`, and the hyphen). -/
def isKeyChar (c : Char) : Bool :=
  (65 ≤ c.toNat && c.toNat ≤ 90) || (97 ≤ c.toNat && c.toNat ≤ 122) || c = '-'

/-- Full match of the `HEADER` regex `([A-Za-z-]+): (.*)` against one line:
returns the key/value pair on success.  The key is the maximal leading run
of key characters; it must be nonempty and be followed by the literal
separator `: `; the value is the remainder of the line. -/
def headerMatch (line : String) : Option (String × String) :=
  let k := line.data.takeWhile isKeyChar
  let rest := line.data.drop k.length
  if k ≠ [] ∧ rest.take 2 = [':', ' '] then
    some (String.mk k, String.mk (rest.drop 2))
  else
    none

/-- Whether a line is a co-authorship trailer (the carve-out
`h[1].lower() == 'co-authored-by'` of `from_message`). -/
def isCab (line : String) : Bool :=
  match headerMatch line with
  | some (k, _) => pyLower k = "co-authored-by"
  | none => false

/-- Full match of the `BREAK` regex: at most three leading spaces, then a
marker out of `*`, `_`, `-`, then at least two further copies of the same
marker each preceded by optional spaces/tabs, then optional trailing
spaces/tabs. -/
def isBreak (line : String) : Bool :=
  -- drop up to three leading spaces
  let body := line.data.drop ((line.data.take 3).takeWhile (· = ' ')).length
  match body with
  | [] => false
  | m :: rest =>
    if m = '*' || m = '_' || m = '-' then
      -- rest must be ≥ 2 groups of ([ \t]* m), then [ \t]*
      breakRest m rest 0
    else false
where
  /-- Scans `([ \t]* marker)* [ \t]*`, counting marker repetitions; accepts
  when at least two further markers occur. -/
  breakRest (m : Char) : List Char → Nat → Bool
    | [], n => n ≥ 2
    | c :: rest, n =>
      if c = m then breakRest m rest (n + 1)
      else if c = ' ' || c = '\t' then breakRest m rest n
      else false

/-- Full match of the `SETEX_UNDERLINE` regex: at most three leading spaces,
a nonempty run of `-` or `=`, then optional trailing spaces. -/
def isSetex (line : String) : Bool :=
  let body := line.data.drop ((line.data.take 3).takeWhile (· = ' ')).length
  let run := body.takeWhile (fun c => c = '-' || c = '=')
  run ≠ [] && (body.drop run.length).all (· = ' ')

/-- A parsed commit message: stripped body plus ordered trailer multimap
(the `Message` class; the body is stored stripped by `__setattr__`). -/
structure Message where
  body : String
  headers : List (String × String)
deriving Repr, DecidableEq

/-- Smart constructor mirroring `Message.__init__`/`__setattr__`: the body
is stripped on assignment. -/
def Message.make (body : String) (headers : List (String × String)) : Message :=
  ⟨pyStrip body, headers⟩

/-- Parser state for the bottom-up line scan of `Message.from_message`.
`bodyRev` holds the body lines most-recently-pushed first (the Python code
appends; `body[-1]` is `bodyRev.head`), `headersRev` likewise for trailers. -/
structure PSt where
  inHeaders : Bool
  maybeSetex : Option String
  headersRev : List (String × String)
  bodyRev : List String
deriving Repr, DecidableEq

/-- Whether `body and body[-1]` holds: nonempty with nonempty last pushed
line. -/
def headNonEmpty : List String → Bool
  | [] => false
  | l :: _ => l ≠ ""

/-- One step of the bottom-up scan of `Message.from_message`, processing a
single line (the loop body over `reversed(lines[1:])`). -/
def pstep (handleBreak : Bool) (st : PSt) (line : String) : PSt :=
  -- resolve a pending setext-underline candidate
  let st :=
    match st.maybeSetex with
    | some s =>
      if line ≠ "" then
        { st with bodyRev := s :: st.bodyRev, maybeSetex := none }
      else
        { st with bodyRev := [], maybeSetex := none }
    | none => st
  if line = "" then
    if ¬st.inHeaders ∧ headNonEmpty st.bodyRev then
      { st with bodyRev := "" :: st.bodyRev }
    else st
  else if handleBreak ∧ isBreak line then
    if isSetex line then { st with maybeSetex := some line }
    else { st with bodyRev := [] }
  else
    match headerMatch line with
    | some (k, v) =>
      if st.inHeaders ∨ pyLower k = "co-authored-by" then
        { st with headersRev := (k, v) :: st.headersRev }
      else
        { st with bodyRev := line :: st.bodyRev, inHeaders := false }
    | none => { st with bodyRev := line :: st.bodyRev, inHeaders := false }

/-- Initial parser state. -/
def pinit : PSt := ⟨true, none, [], []⟩

/-- Assembles the final message from the title line and the scan result:
mirrors the tail of `from_message` (separator insertion, title append,
reversal, join, strip on assignment). -/
def passemble (title : String) (st : PSt) : Message :=
  let bodyLines :=
    if headNonEmpty st.bodyRev then title :: "" :: st.bodyRev
    else title :: st.bodyRev
  Message.make (joinNL bodyLines) st.headersRev

/-- Embedding of `Message.from_message` on a list of lines (the title line
is not scanned). -/
def fromLines (handleBreak : Bool) (lines : List String) (title : String) : Message :=
  passemble title ((lines.drop 1).reverse.foldl (pstep handleBreak) pinit)

/-- Embedding of `Message.from_message`.  Returns `none` for the empty
string, on which the source raises `IndexError` (`lines[0]` with
`''.splitlines() == []`).  `handleBreak` is true when constructing from a
PR (thematic-break truncation enabled), false for a raw string. -/
def from_message (handleBreak : Bool) (msg : String) : Option Message :=
  match pySplitlines msg with
  | [] => none
  | title :: _ => some (fromLines handleBreak (pySplitlines msg) title)

/-- Insertion-order deduplication (Python `OrderedSet`). -/
def orderedDedup : List String → List String
  | [] => []
  | k :: ks => k :: (orderedDedup ks).filter (· ≠ k)

/-- Werkzeug `Headers.getlist`: all values whose key matches
case-insensitively, in insertion order. -/
def getlist (hs : List (String × String)) (k : String) : List String :=
  (hs.filter (fun p => pyLower p.1 = pyLower k)).map Prod.snd

/-- The serialized trailer block of `Message.__str__`: keys capitalized and
deduplicated in encounter order, the co-authorship key stably sorted last,
one `Key: value` line per value. -/
def renderLines (hs : List (String × String)) : List String :=
  let caps := orderedDedup (hs.map (fun p => pyCapitalize p.1))
  let keys := caps.filter (· ≠ "Co-authored-by") ++ caps.filter (· = "Co-authored-by")
  keys.flatMap (fun k => (getlist hs k).map (fun v => k ++ ": " ++ v))

/-- Embedding of `Message.__str__`: body plus newline when there are no
trailers, otherwise body, a blank line, and the trailer block. -/
def serialize (m : Message) : String :=
  if m.headers = [] then m.body ++ "\n"
  else m.body ++ "\n\n" ++ joinNL (renderLines m.headers) ++ "\n"

end Runbot.Msg

namespace Runbot.Sel

/-! ## Ready-Set Selector

Embedding of `ready_prs` (the SQL grouping query) and of the selection
logic of `try_staging`.
-/

/-- A pull-request row as seen by the selector query. -/
structure SPR where
  id : Nat
  target : Nat
  label : String
  priority : Nat
  prState : String
  blocked : Bool
deriving Repr, DecidableEq

/-- Whether a label matches `SIMILAR TO '%:patch-[[:digit:]]+'`: any prefix
followed by the literal `:patch-` and one or more digits, anchored at both
ends. -/
def isPatchLabel (l : String) : Bool :=
  let rev := l.data.reverse
  let ds := rev.takeWhile Char.isDigit
  ds ≠ [] && (rev.drop ds.length).take 7 = (":patch-".data.reverse.take 7)
    && (rev.drop ds.length).length ≥ 7

/-- The grouping key of the query's `CASE` expression: the PR id rendered as
text for patch labels, otherwise the label itself. -/
def dedupKey (p : SPR) : String :=
  if isPatchLabel p.label then toString p.id else p.label

/-- The rows of the pool that the query retains for a branch: targeting it
and not in a terminal state. -/
def inPool (branch : Nat) (pool : List SPR) : List SPR :=
  pool.filter (fun p => p.target = branch ∧ p.prState ≠ "merged" ∧ p.prState ≠ "closed")

/-- The candidate group a PR lands in: all retained rows sharing its
grouping key (the query's `GROUP BY target, CASE ... END`). -/
def groupOf (branch : Nat) (pool : List SPR) (p : SPR) : List SPR :=
  (inPool branch pool).filter (fun q => dedupKey q = dedupKey p)

/-- The `HAVING` clause: at least one member ready, or one with priority 0. -/
def qualifies (g : List SPR) : Bool :=
  g.any (fun p => p.prState = "ready") || g.any (fun p => p.priority = 0)

/-- Minimum of a projection over a (nonempty) group, with default 0. -/
def minOver (f : SPR → Nat) : List SPR → Nat
  | [] => 0
  | p :: ps => ps.foldl (fun m q => min m (f q)) (f p)

/-- Insertion step of the sort below. -/
def insertBy (le : α → α → Bool) (x : α) : List α → List α
  | [] => [x]
  | y :: ys => if le x y then x :: y :: ys else y :: insertBy le x ys

/-- Insertion sort by a boolean order (stable; used for the query's
`ORDER BY min(priority), min(id)`). -/
def isortBy (le : α → α → Bool) : List α → List α
  | [] => []
  | x :: xs => insertBy le x (isortBy le xs)

/-- Embedding of `ready_prs`: qualifying groups as
`(min priority, members)` rows ordered by `(min priority, min id)`. -/
def ready_prs (branch : Nat) (pool : List SPR) : List (Nat × List SPR) :=
  let retained := inPool branch pool
  let keys := (retained.map dedupKey).eraseDups
  let groups := keys.map (fun k => retained.filter (fun q => dedupKey q = k))
  let rows := (groups.filter qualifies).map
    (fun g => (minOver (·.priority) g, g))
  isortBy (fun a b =>
    a.1 < b.1 || (a.1 = b.1 && minOver (·.id) a.2 ≤ minOver (·.id) b.2)) rows

/-- A branch as seen by `try_staging`: whether it has an active staging,
and its pending splits (each split a list of batches, each batch the PRs
it re-stages). -/
structure BranchRec where
  id : Nat
  hasActiveStaging : Bool
  splits : List (List (List SPR))
deriving Repr, DecidableEq

/-- Embedding of the selection phase of `try_staging`: `none` when the
branch has an active staging or when no unblocked row qualifies, otherwise
the ordered list of batches (PR sets) offered to the orchestrator. -/
def try_staging (b : BranchRec) (pool : List SPR) : Option (List (List SPR)) :=
  if b.hasActiveStaging then none
  else
    let rows := (ready_prs b.id pool).filter (fun r => ¬r.2.any (·.blocked))
    match rows with
    | [] => none
    | (priority, _) :: _ =>
      if priority = 0 ∨ priority = 1 then
        some ((rows.takeWhile (fun r => r.1 = priority)).map (·.2))
      else
        match b.splits with
        | split :: _ => some split
        | [] => some ((rows.takeWhile (fun r => r.1 = priority)).map (·.2))

end Runbot.Sel

namespace Runbot.BatchLevel

/-! ## Staging a batch: the rollback discipline of `stage_batch`

The per-PR staging call (`stage`) is abstracted by an outcome function:
either it succeeds with a new head for the PR's repository, or it raises,
possibly leaving the repository's temporary ref partially updated.  This
mirrors lines 345–405 of the source: per-PR `original_head` read, the
`except Exception` rollback handler, and the final `StagingSlice.head`
update performed only once the whole batch has succeeded.
-/

/-- A PR as seen by `stage_batch`: only its repository matters here (all
PRs of a batch share one target branch). -/
structure BPR where
  repo : Nat
deriving Repr, DecidableEq, Inhabited

/-- Outcome of one per-PR `stage` call: success with the new head the
strategy leaves the temporary ref at, or an exception raised with the ref
left at some partially-updated value. -/
inductive StageOut where
  | ok (newHead : String)
  | fail (partialHead : String)
deriving Repr, DecidableEq

/-- Working state of one staging attempt: the temporary ref per repository
and the `StagingSlice.head` per repository. -/
structure BState where
  refs : Nat → String
  slice : Nat → String

/-- Pointwise update of a repository's ref. -/
def setRef (refs : Nat → String) (r : Nat) (v : String) : Nat → String :=
  fun x => if x = r then v else refs x

/-- Data carried out of a failed `stage_batch`: the rolled-back state, the
failing PR, the head read immediately before it was staged, the earlier
successes of this batch (`new_heads`), and the `set_ref` calls the
rollback handler issued, in order. -/
structure FailInfo where
  refs : Nat → String
  slice : Nat → String
  failPr : BPR
  preRead : String
  earlier : List (BPR × String)
  actions : List (Nat × String)

/-- Result of `stage_batch`: an exception escaping after rollback, or the
whole batch staged with slice heads advanced. -/
inductive SBResult where
  | failed (i : FailInfo)
  | staged (s : BState) (newHeads : List (BPR × String))

/-- Loop of `stage_batch` over the PRs of one batch, carrying `new_heads`. -/
def stage_batch_go (outcome : BPR → StageOut) :
    List BPR → List (BPR × String) → BState → SBResult
  | [], newHeads, s =>
    -- update meta to new heads (only now do slice heads advance)
    .staged { s with
      slice := newHeads.foldl (fun sl ph => setRef sl ph.1.repo ph.2) s.slice } newHeads
  | pr :: rest, newHeads, s =>
    let originalHead := s.refs pr.repo
    match outcome pr with
    | .ok h =>
      stage_batch_go outcome rest (newHeads ++ [(pr, h)])
        { s with refs := setRef s.refs pr.repo h }
    | .fail partialHead =>
      -- reset the head which failed, then reset every previous update
      let refs1 := setRef (setRef s.refs pr.repo partialHead) pr.repo originalHead
      let refs2 := newHeads.foldl (fun rf ph => setRef rf ph.1.repo (s.slice ph.1.repo)) refs1
      .failed {
        refs := refs2
        slice := s.slice
        failPr := pr
        preRead := originalHead
        earlier := newHeads
        actions := (pr.repo, originalHead) ::
          newHeads.map (fun ph => (ph.1.repo, s.slice ph.1.repo)) }

/-- Embedding of `stage_batch` restricted to its ref discipline. -/
def stage_batch (outcome : BPR → StageOut) (prs : List BPR) (s : BState) : SBResult :=
  stage_batch_go outcome prs [] s

/-- Whether a `stage_batch` run failed. -/
def SBResult.isFailed : SBResult → Bool
  | .failed _ => true
  | .staged _ _ => false

/-- Projection to the failure data (junk defaults on success). -/
def SBResult.asFailed : SBResult → FailInfo
  | .failed i => i
  | .staged s nh => ⟨s.refs, s.slice, default, "", nh, []⟩

end Runbot.BatchLevel

namespace Runbot.StageLevel

open Runbot.Msg

/-! ## Merge Strategy Engine

Embedding of `stage` and the four strategy functions.  The github proxy
(`gh`), the managed-branch lookup and the canonical-message builder
(`utils.make_message`, `pr._build_merge_message`, both implemented outside
this source file) are passed in as oracle parameters.
-/

/-- The four merge strategies (`Method` literal of the source). -/
inductive Method where
  | merge
  | rebase_merge
  | rebase_ff
  | squash
deriving Repr, DecidableEq

/-- The cached pull-request record as read and written by `stage`. -/
structure PrRec where
  repo : Nat
  repoName : String
  number : Nat
  head : String
  targetName : String
  targetId : Nat
  squash : Bool
  message : String
  mergeMethod : Option Method
  prState : String
  commitsMap : List (String × String)
  reviewerName : Option String
  reviewerLogin : String
deriving Repr, DecidableEq

/-- One commit of the PR as returned by the commit-list endpoint. -/
structure PrCommit where
  sha : String
  parents : List String
  message : String
  authorName : String
  authorEmail : String
  committerName : String
  committerEmail : String
deriving Repr, DecidableEq

/-- A managed branch row (`runbot_merge.branch` search result). -/
structure BranchRow where
  id : Nat
  name : String
deriving Repr, DecidableEq

/-- Results of the remote github collaborator's operations (spec section 6:
merge, rebase, commit creation, user lookup).  `none` on a merge/rebase
models the remote's merge-conflict failure (`github.MergeError`). -/
structure GhOracle where
  mergeRes : String → String → Option (String × String)
  newCommitSha : String → List String → String
  rebaseRes : Nat → String → Bool → List PrCommit → Option (String × List (String × String))
  userName : String → Option String

/-- Live inputs of one `stage` call.  `mkMessage` and the two builders are
modelled from the spec: `utils.make_message` and `_build_merge_message`
live outside this source file; the spec only requires them to produce one
canonical message per strategy, passed through the Commit Message Model. -/
structure StageEnv where
  prdictCommits : Nat
  baseRef : String
  prCommits : List PrCommit
  mkMessage : String
  buildMsgOfPr : Message
  buildMsgOfStr : String → Message
  branchByName : String → Option BranchRow
  gh : GhOracle

/-- Exceptions escaping `stage` (including the two Python runtime errors
reachable when no merge method is configured). -/
inductive StageExc where
  | unmergeable (args0 : Sum PrRec String) (args1 : Option String)
  | mismatch (invalidFields : List String) (diff : List (String × String × String))
  | ghMergeError
  | noneAttrError
  | unboundStrategy
  | emptyCommits
deriving Repr, DecidableEq

/-- Result of one strategy function: the new target head, the updated PR
record (`commits_map` written), and the `(refname, sha)` ref updates
applied to the PR's repository. -/
structure StratRes where
  head : String
  pr : PrRec
  refOps : List (String × String)
deriving Repr, DecidableEq

/-- Result of `stage`: outcome, the PR record after any write-back
(`none` when the PR was unlinked), and the ref updates performed. -/
structure StageRes where
  result : Except StageExc (Method × String)
  pr : Option PrRec
  refOps : List (String × String)

/-- The temporary staging ref of the PR's target branch. -/
def tmpRef (pr : PrRec) : String := "tmp." ++ pr.targetName

/-- Python dict insertion: override an existing key in place, else append. -/
def dinsert (m : List (String × String)) (k v : String) : List (String × String) :=
  if m.any (fun p => p.1 = k) then
    m.map (fun p => if p.1 = k then (k, v) else p)
  else m ++ [(k, v)]

/-- Python dict construction from a key/value stream (later wins). -/
def dictOf (l : List (String × String)) : List (String × String) :=
  l.foldl (fun m p => dinsert m p.1 p.2) []

/-- Word character for the `\b` anchors of `is_mentioned`. -/
def isWordChar (c : Char) : Bool := c.isAlphanum || c = '_'

/-- Regex word boundary between two optional adjacent characters. -/
def boundary (a b : Option Char) : Bool :=
  (a.map isWordChar).getD false ≠ (b.map isWordChar).getD false

/-- Embedding of `is_mentioned` (without `full_reference`): searches the
message for `( |\b<repository>)#<number>\b`; regex metacharacters of the
repository name are treated literally. -/
def is_mentioned (repoName : String) (number : Nat) (message : String) : Bool :=
  let cs := message.data
  let num := (toString number).data
  let hashAt : Nat → Bool := fun j =>
    (cs.drop j).take (1 + num.length) = '#' :: num &&
    !(((cs.get? (j + 1 + num.length)).map isWordChar).getD false)
  (List.range (cs.length + 1)).any fun i =>
    (cs.get? i = some ' ' && hashAt (i + 1)) ||
    (boundary (if i = 0 then none else cs.get? (i - 1)) (cs.get? i) &&
      (cs.drop i).take repoName.length = repoName.data &&
      hashAt (i + repoName.length))

/-- Display name of a PR (`repository.name#number`). -/
def displayName (pr : PrRec) : String := pr.repoName ++ "#" ++ toString pr.number

/-- Embedding of `add_self_references`: adds a `Part-Of` footer to every
commit whose message does not already mention the PR.  Returns `none` when
`Message.from_message` is undefined (empty commit message, an `IndexError`
in the source). -/
def add_self_references (pr : PrRec) (commits : List PrCommit) : Option (List PrCommit) :=
  commits.mapM fun c =>
    if is_mentioned pr.repoName pr.number c.message then some c
    else
      (from_message false c.message).map fun m =>
        let m2 : Message :=
          ⟨m.body, m.headers.filter (fun p => pyLower p.1 ≠ "part-of") ++
            [("Part-Of", displayName pr)]⟩
        { c with message := serialize m2 }

/-- String comparison used for Python `sorted` (code-point lexicographic). -/
def strLe (a b : String) : Bool := decide (a ≤ b)

/-- Embedding of `stage_squash`. -/
def stage_squash (pr : PrRec) (env : StageEnv) (refHead : String) :
    Except StageExc StratRes :=
  let msg0 := env.buildMsgOfPr
  let authors := (env.prCommits.map (fun c => (c.authorName, c.authorEmail))).eraseDups
  -- author/committer identities are forwarded to the commit-creation
  -- collaborator; only the co-author trailers are observable here
  let msg : Message :=
    if authors.length = 1 then msg0
    else
      ⟨msg0.body, msg0.headers ++
        (Runbot.Sel.isortBy strLe
          (authors.map (fun a => a.1 ++ " <" ++ a.2 ++ ">"))).map
          (fun v => ("Co-Authored-By", v))⟩
  match env.gh.mergeRes pr.head refHead with
  | none => .error .ghMergeError
  | some (_, tree) =>
    let originalHead := refHead
    let head := env.gh.newCommitSha tree [originalHead]
    let cmap := dinsert (dictOf (env.prCommits.map (fun c => (c.sha, head)))) "" head
    let _ := serialize msg  -- message sent with the created commit
    .ok ⟨head, { pr with commitsMap := cmap }, [(tmpRef pr, head)]⟩

/-- Embedding of `stage_rebase_ff`. -/
def stage_rebase_ff (pr : PrRec) (env : StageEnv) (refHead : String) :
    Except StageExc StratRes :=
  match env.prCommits.getLast? with
  | none => .error .emptyCommits
  | some lastC =>
    let msg := env.buildMsgOfStr lastC.message
    let newLast := { lastC with message := serialize msg }
    match add_self_references pr env.prCommits.dropLast with
    | none => .error .emptyCommits
    | some front =>
      match env.gh.rebaseRes pr.number refHead false (front ++ [newLast]) with
      | none => .error .ghMergeError
      | some (head, mapping) =>
        .ok ⟨head, { pr with commitsMap := dinsert mapping "" head },
          [(tmpRef pr, head)]⟩

/-- Embedding of `stage_rebase_merge`. -/
def stage_rebase_merge (pr : PrRec) (env : StageEnv) (refHead : String) :
    Except StageExc StratRes :=
  match add_self_references pr env.prCommits with
  | none => .error .emptyCommits
  | some commits =>
    match env.gh.rebaseRes pr.number refHead true commits with
    | none => .error .ghMergeError
    | some (h, mapping) =>
      let _ := serialize env.buildMsgOfPr  -- merge-commit message
      match env.gh.mergeRes h refHead with
      | none => .error .ghMergeError
      | some (mergeHead, _) =>
        .ok ⟨mergeHead, { pr with commitsMap := dinsert mapping "" mergeHead },
          [(tmpRef pr, mergeHead)]⟩

/-- Comma join for the multi-parent error message. -/
def joinComma : List String → String
  | [] => ""
  | [x] => x
  | x :: xs => x ++ ", " ++ joinComma xs

/-- Embedding of `stage_merge`.  Note: the multi-external-parent
`Unmergeable` is raised with the message string as its first argument (the
PR record is not passed), exactly as in the source. -/
def stage_merge (pr : PrRec) (env : StageEnv) (refHead : String) :
    Except StageExc StratRes :=
  match env.prCommits.getLast? with
  | none => .error .emptyCommits
  | some prHead =>
    let headParents := prHead.parents.eraseDups
    let commitShas := env.prCommits.map (·.sha)
    let ext := headParents.filter (fun p => ¬ commitShas.contains p)
    if headParents.length > 1 ∧ ext.length > 1 then
      .error (.unmergeable
        (.inr ("The PR head can only have one parent from the base branch " ++
          "(not part of the PR itself), found " ++ toString ext.length ++ ": " ++
          joinComma ext))
        none)
    else
      let baseCommit : Option String :=
        if headParents.length > 1 ∧ ext.length = 1 then ext.head? else none
      let cmap0 := dictOf (env.prCommits.map (fun c => (c.sha, c.sha)))
      match baseCommit with
      | some base =>
        let originalHead := refHead
        match env.gh.mergeRes prHead.sha refHead with
        | none => .error .ghMergeError
        | some (_, tree) =>
          let newParents := originalHead :: headParents.filter (· ≠ base)
          let _ := serialize (env.buildMsgOfStr prHead.message)
          let copy := env.gh.newCommitSha tree newParents
          .ok ⟨copy,
            { pr with commitsMap := dinsert (dinsert cmap0 prHead.sha copy) "" copy },
            [(tmpRef pr, copy)]⟩
      | none =>
        let _ := serialize env.buildMsgOfPr
        match env.gh.mergeRes pr.head refHead with
        | none => .error .ghMergeError
        | some (mergeHead, _) =>
          .ok ⟨mergeHead, { pr with commitsMap := dinsert cmap0 "" mergeHead },
            [(tmpRef pr, mergeHead)]⟩

/-- Python `str` rendering of a boolean (for the mismatch diff rows). -/
def pyBoolStr (b : Bool) : String := if b then "True" else "False"

/-- The strategy chosen by `stage`:
`pr.merge_method or ('rebase-ff' if commits == 1 else None)`. -/
def chooseMethod (pr : PrRec) (commits : Nat) : Option Method :=
  match pr.mergeMethod with
  | some m => some m
  | none => if commits = 1 then some .rebase_ff else none

/-- The chained comparison `pr.squash != commits == 1` of the consistency
check: `(pr.squash != commits) and (commits == 1)` with Python bool/int
comparison. -/
def squashMismatch (pr : PrRec) (commits : Nat) : Prop :=
  ((if pr.squash then 1 else 0) ≠ commits) ∧ commits = 1

instance (pr : PrRec) (commits : Nat) : Decidable (squashMismatch pr commits) :=
  inferInstanceAs (Decidable (_ ∧ _))

/-- The consistency-check phase and dispatch of `stage`, after the limit
and email checks have passed and the PR head commit is known. -/
def stageChecked (pr : PrRec) (env : StageEnv) (refHead : String)
    (method? : Option Method) (prHeadSha : String) : StageRes :=
  let commits := env.prdictCommits
  let headDiff := pr.head ≠ prHeadSha
  let targetDiff := pr.targetName ≠ env.baseRef
  if targetDiff ∧ env.branchByName env.baseRef = none then
    -- pr.unlink(); raise Unmergeable
    ⟨.error (.unmergeable (.inl pr)
      (some "While staging, found this PR had been retargeted to an un-managed branch.")),
      none, []⟩
  else
    let newBranch := env.branchByName env.baseRef
    let squashDiff := squashMismatch pr commits
    let msgDiff := pr.message ≠ env.mkMessage
    let invalidFields :=
      (if headDiff then ["head"] else []) ++
      (if targetDiff then ["target"] else []) ++
      (if squashDiff then ["squash"] else []) ++
      (if msgDiff then ["message"] else [])
    if invalidFields ≠ [] then
      let diff :=
        (if headDiff then [("Head", pr.head, prHeadSha)] else []) ++
        (if targetDiff then
          [("Target branch", pr.targetName, ((newBranch.map (·.name)).getD ""))] else []) ++
        (if squashDiff then
          [("Single commit", pyBoolStr pr.squash, pyBoolStr (commits = 1))] else []) ++
        (if msgDiff then [("Message", pr.message, env.mkMessage)] else [])
      let pr' := { pr with
        head := prHeadSha
        targetName := if targetDiff then (newBranch.map (·.name)).getD pr.targetName
          else pr.targetName
        targetId := if targetDiff then (newBranch.map (·.id)).getD pr.targetId
          else pr.targetId
        squash := if squashDiff then commits = 1 else pr.squash
        message := if msgDiff then env.mkMessage else pr.message
        prState := "opened" }
      ⟨.error (.mismatch invalidFields diff), some pr', []⟩
    else
      -- opportunistic reviewer display-name sync
      let pr2 :=
        match pr.reviewerName with
        | some nm =>
          if nm = pr.reviewerLogin then
            match env.gh.userName pr.reviewerLogin with
            | some gname => { pr with reviewerName := some gname }
            | none => pr
          else pr
        | none => pr
      match method? with
      | none => ⟨.error .unboundStrategy, some pr2, []⟩
      | some m =>
        match
          (match m with
           | .merge => stage_merge pr2 env refHead
           | .rebase_merge => stage_rebase_merge pr2 env refHead
           | .rebase_ff => stage_rebase_ff pr2 env refHead
           | .squash => stage_squash pr2 env refHead) with
        | .error e => ⟨.error e, some pr2, []⟩
        | .ok sr => ⟨.ok (m, sr.head), some sr.pr, sr.refOps⟩

/-- Embedding of `stage` (lines 422–491): count limits, email check,
consistency check with write-back, reviewer-name sync, dispatch. -/
def stage (pr : PrRec) (env : StageEnv) (refHead : String) : StageRes :=
  let commits := env.prdictCommits
  let method? := chooseMethod pr commits
  if commits > 50 ∧ method? = none then
    -- `method.startswith('rebase')` with `method = None`
    ⟨.error .noneAttrError, some pr, []⟩
  else if commits > 50 ∧ (method? = some .rebase_merge ∨ method? = some .rebase_ff) then
    ⟨.error (.unmergeable (.inl pr) (some "Rebasing 50 commits is too much.")),
      some pr, []⟩
  else if commits > 250 then
    ⟨.error (.unmergeable (.inl pr)
      (some "Merging PRs of 250 or more commits is not supported")), some pr, []⟩
  else
    match env.prCommits.find? (fun c => c.authorEmail = "" || c.committerEmail = "") with
    | some c =>
      ⟨.error (.unmergeable (.inl pr)
        (some ("All commits must have author and committer email, missing email on " ++
          c.sha ++ " indicates the authorship is most likely incorrect."))), some pr, []⟩
    | none =>
      match env.prCommits.getLast? with
      | none => ⟨.error .emptyCommits, some pr, []⟩
      | some lastC => stageChecked pr env refHead method? lastC.sha

/-- Exception classes caught by the `stage_batches` handler.  Modelled from
the spec: `exceptions.Unmergeable` specialises `exceptions.MergeError`
(section 7 taxonomy; the classes live outside this source file). -/
inductive MergeErrClass where
  | plain
  | unmergeable
deriving Repr, DecidableEq

/-- An `exceptions.MergeError` as it reaches `stage_batches`: class plus
the constructor arguments it was raised with. -/
structure MergeErrorExc where
  cls : MergeErrClass
  args0 : Sum PrRec String
  args1 : Option String
deriving Repr, DecidableEq

/-- How exceptions escaping `stage` surface at `stage_batches`
(`stage_batch` wraps `github.MergeError` into `exceptions.MergeError(pr)`
and handles `Mismatch` itself; other exceptions propagate unchanged). -/
def toMergeError (pr : PrRec) : StageExc → Option MergeErrorExc
  | .ghMergeError => some ⟨.plain, .inl pr, none⟩
  | .unmergeable a0 a1 => some ⟨.unmergeable, a0, a1⟩
  | _ => none

/-- A Python runtime error escaping the handler. -/
inductive PyCrash where
  | attributeError
deriving Repr, DecidableEq

/-- Effect of the `stage_batches` `except exceptions.MergeError` handler. -/
structure HandlerOut where
  prSetToError : Option PrRec
  notifiedNumber : Option Nat
deriving Repr, DecidableEq

/-- Embedding of the `except exceptions.MergeError` handler of
`stage_batches` (lines 280–298): reads `pr = e.args[0]`, logs
`pr.display_name`, and when nothing is staged yet or the error is
`Unmergeable`, sets `pr.state = 'error'` and sends the merge-failed
notification.  When `args[0]` is a string (not a PR record) the attribute
accesses raise `AttributeError`. -/
def handle_merge_error (stagedIsEmpty : Bool) (e : MergeErrorExc) :
    Except PyCrash HandlerOut :=
  match e.args0 with
  | .inr _ => .error .attributeError
  | .inl pr =>
    if stagedIsEmpty ∨ e.cls = .unmergeable then
      .ok ⟨some { pr with prState := "error" }, some pr.number⟩
    else
      .ok ⟨none, none⟩

end Runbot.StageLevel

namespace Runbot.Vis

/-! ## Visibility Verifier

Embedding of `check_visibility` and `parse_refs_smart` (the pkt-line
ref-advertisement client), plus the bounded-retry caller
(`wait_for_visibility` under `utils.backoff`, modelled from the spec:
four attempts, exhaustion is a hard timeout).
-/

/-- An HTTP response to the ref-advertisement GET: success flag and raw
body stream. -/
structure Response where
  respOk : Bool
  body : List Char
deriving Repr, DecidableEq

/-- Protocol-level failures of `parse_refs_smart` (the `assert`s and the
`int(read(4), 16)` conversion). -/
inductive ProtoErr where
  | badLength
  | badHeader
  | missingFlush
  | badRefline
deriving Repr, DecidableEq

/-- Hexadecimal digit accepted by Python `int(x, 16)`. -/
def isHexDigit (c : Char) : Bool :=
  c.isDigit || ('a' ≤ c && c ≤ 'f') || ('A' ≤ c && c ≤ 'F')

/-- Value of one hexadecimal digit. -/
def hexDigitVal (c : Char) : Nat :=
  if c.isDigit then c.toNat - '0'.toNat
  else if 'a' ≤ c && c ≤ 'f' then c.toNat - 'a'.toNat + 10
  else c.toNat - 'A'.toNat + 10

/-- Value of a hexadecimal digit string. -/
def hexVal (cs : List Char) : Nat :=
  cs.foldl (fun n c => n * 16 + hexDigitVal c) 0

/-- One `read_line` of `parse_refs_smart`: reads the 4-hex-digit length,
then the payload; `none` payload is a flush line (length 0).  A short or
non-hex length prefix is the `ValueError` of `int(read(4), 16)`.  (A
declared length below 4 reads no payload here.) -/
def readLine (s : List Char) : Except ProtoErr (Option (List Char) × List Char) :=
  let four := s.take 4
  if four.length = 4 ∧ four.all isHexDigit then
    let n := hexVal four
    if n = 0 then .ok (none, s.drop 4)
    else .ok (some ((s.drop 4).take (n - 4)), s.drop (4 + (n - 4)))
  else .error .badLength

/-- Python `rstrip` at the character-list level. -/
def pyRStripC (cs : List Char) : List Char :=
  (cs.reverse.dropWhile Runbot.isPyWS).reverse

/-- Lowercase-hex sha character of the `refline` regex (`[\da-f]`). -/
def isShaChar (c : Char) : Bool := c.isDigit || ('a' ≤ c && c ≤ 'f')

/-- Full match of `refline = ([\da-f]{40}) ([^\0\n]+)(\0.*)?\n?`:
40-character sha, space, nonempty ref free of NUL/newline, optional
NUL-prefixed capability list, optional final newline. -/
def matchRefline (l : List Char) : Option (List Char × List Char) :=
  let sha := l.take 40
  if sha.length = 40 ∧ sha.all isShaChar ∧ l.get? 40 = some ' ' then
    let rest := l.drop 41
    let ref := rest.takeWhile (fun c => c ≠ '\x00' ∧ c ≠ '\n')
    let after := rest.drop ref.length
    let capsOk :=
      match after with
      | [] => true
      | ['\n'] => true
      | '\x00' :: caps =>
        let caps' := if caps.getLast? = some '\n' then caps.dropLast else caps
        caps'.all (· ≠ '\n')
      | _ => false
    if ref ≠ [] && capsOk then some (sha, ref) else none
  else none

/-- The `ZERO_REF` sentinel: a line starting with forty `0` characters. -/
def startsWithZeroRef (l : List Char) : Bool :=
  l.take 40 = List.replicate 40 '0'

/-- The scan of `check_visibility` over the yielded ref lines, fused with
the lazy generator `parse_refs_smart`: stops at the first line advertising
the wanted ref and compares its sha with the expected head.  `fuel` bounds
the loop (each iteration consumes at least four characters). -/
def scanRefs (wanted : List Char) (expected : List Char) :
    Nat → List Char → Except ProtoErr Bool
  | 0, _ => .error .badLength
  | fuel + 1, s =>
    match readLine s with
    | .error e => .error e
    | .ok (none, _) => .ok false                -- flush: advertisement ends
    | .ok (some line, rest) =>
      if startsWithZeroRef line then .ok false  -- empty list (no refs)
      else
        match matchRefline line with
        | none => .error .badRefline
        | some (sha, ref) =>
          if ref = wanted then .ok (sha = expected)
          else scanRefs wanted expected fuel rest

/-- Embedding of `check_visibility`: a non-success HTTP status returns
`false`; otherwise the pkt-line stream is parsed (service header, flush,
then ref lines) and scanned for the branch's ref. -/
def check_visibility (branchName expectedHead : String) (resp : Response) :
    Except ProtoErr Bool :=
  if ¬resp.respOk then .ok false
  else
    match readLine resp.body with
    | .error e => .error e
    | .ok (none, _) => .error .badHeader
    | .ok (some header, rest) =>
      if pyRStripC header ≠ "# service=git-upload-pack".data then .error .badHeader
      else
        match readLine rest with
        | .error e => .error e
        | .ok (some _, _) => .error .missingFlush
        | .ok (none, rest2) =>
          scanRefs ("refs/heads/" ++ branchName).data expectedHead.data
            (rest2.length + 1) rest2

/-- Failure modes of the publish-step visibility wait. -/
inductive VisFail where
  | timeout
  | proto (e : ProtoErr)
deriving Repr, DecidableEq

/-- Modelled from the spec: the `utils.backoff` retry schedule around
`wait_for_visibility` — one `check_visibility` per attempt (four in the
source's `WAIT_FOR_VISIBILITY`), a raised `TimeoutError` retried until the
schedule is exhausted; a protocol error is not a `TimeoutError` and
escapes immediately. -/
def wait_for_visibility (check : Response → Except ProtoErr Bool) :
    List Response → Except VisFail Unit
  | [] => .error .timeout
  | r :: rs =>
    match check r with
    | .ok true => .ok ()
    | .ok false => wait_for_visibility check rs
    | .error e => .error (.proto e)

end Runbot.Vis

namespace Runbot.StageLevel

/-- Whether a `stage` outcome is a `Mismatch` exception. -/
def resultIsMismatch : Except StageExc (Method × String) → Bool
  | .error (.mismatch _ _) => true
  | _ => false

/-- The field-by-field diff carried by a `Mismatch` outcome. -/
def resultDiff : Except StageExc (Method × String) → List (String × String × String)
  | .error (.mismatch _ d) => d
  | _ => []

/-- Whether a `stage` outcome is any exception. -/
def resultIsError : Except StageExc (Method × String) → Bool
  | .error _ => true
  | .ok _ => false

/-- Projection from a strategy result to its success value (junk default on
error). -/
def okOrDefault : Except StageExc StratRes → StratRes
  | .ok sr => sr
  | .error _ =>
    ⟨"", ⟨0, "", 0, "", "", 0, false, "", none, "", [], none, ""⟩, []⟩

end Runbot.StageLevel

namespace Runbot

open Runbot.Sel Runbot.Msg Runbot.StageLevel Runbot.BatchLevel Runbot.Vis

/-! ## Claim C5 -/

/-- C5: for every branch that already has an active `Staging`, `try_staging`
returns `none` without offering any batch, whatever the pool of pull
requests. -/
theorem C5_active_staging_returns_nothing
    (b : Sel.BranchRec) (pool : List Sel.SPR) (h : b.hasActiveStaging = true) :
    Sel.try_staging b pool = none := by
  unfold Sel.try_staging
  simp [h]

/-- Witness for C5 at a concrete branch with an active staging and a
nonempty ready pool. -/
theorem C5_active_staging_returns_nothing_witness :
    (Sel.BranchRec.mk 1 true []).hasActiveStaging = true ∧
    Sel.try_staging (Sel.BranchRec.mk 1 true [])
      [⟨7, 1, "owner:fix", 2, "ready", false⟩] = none :=
  ⟨rfl, C5_active_staging_returns_nothing (Sel.BranchRec.mk 1 true [])
    [⟨7, 1, "owner:fix", 2, "ready", false⟩] rfl⟩

/-! ## Claim C9 -/

/-- C9 counterexample: parsing the two-line PR message `"Title\n---"` does
not preserve both lines — the dash line is dropped (the pending setext
underline is never resolved because the title line is not scanned), the
body is `"Title"` alone, refuting the claim's first scenario. -/
theorem C9_counterexample :
    Msg.from_message true "Title\n---" = some ⟨"Title", []⟩ ∧
    ∀ m : Msg.Message, Msg.from_message true "Title\n---" = some m →
      m.body ≠ "Title\n---" := by
  refine ⟨by decide, ?_⟩
  intro m hm
  have : m = ⟨"Title", []⟩ := by
    have h0 : Msg.from_message true "Title\n---" = some ⟨"Title", []⟩ := by decide
    rw [h0] at hm; exact (Option.some_inj.mp hm).symm
  rw [this]; decide

/-- C9 as amended: on `"Title\n---"` the underline candidate is dropped at
the end of the scan (only the title survives in the body); when the dashed
line sits under a non-title, non-blank line (three-line `"A\nTitle\n---"`)
both lines are preserved; on `"Para\n\n---"` the dash line is a thematic
break which discards the lines collected below it, leaving body `"Para"`. -/
theorem C9_setext_disambiguation :
    Msg.from_message true "Title\n---" = some ⟨"Title", []⟩ ∧
    Msg.from_message true "A\nTitle\n---" = some ⟨"A\n\nTitle\n---", []⟩ ∧
    Msg.from_message true "Para\n\n---" = some ⟨"Para", []⟩ := by
  refine ⟨by decide, by decide, by decide⟩

/-! ## Claim C4 -/

/-- The concrete PR of claim C4's failing input. -/
def c4pr : StageLevel.PrRec :=
  ⟨0, "org/repo", 42, "H2", "master", 1, false, "msg", some .merge, "ready",
    [], none, "login"⟩

/-- The live environment of claim C4's failing input: the PR head `H2` has
two parents `P1`, `P2`, neither of which is a commit of the PR. -/
def c4env : StageLevel.StageEnv where
  prdictCommits := 1
  baseRef := "master"
  prCommits := [⟨"H2", ["P1", "P2"], "m", "a", "a@x", "c", "c@x"⟩]
  mkMessage := "msg"
  buildMsgOfPr := ⟨"msg", []⟩
  buildMsgOfStr := fun s => ⟨s, []⟩
  branchByName := fun _ => some ⟨1, "master"⟩
  gh := ⟨fun _ _ => some ("M", "T"), fun _ _ => "C", fun _ _ _ _ => some ("R", []),
    fun _ => none⟩

/-- The message string the multi-external-parent `Unmergeable` is raised
with (its `args[0]`). -/
def c4msg : String :=
  "The PR head can only have one parent from the base branch " ++
  "(not part of the PR itself), found 2: P1, P2"

/-- C4: in the multi-external-parent case, `stage_merge` raises
`Unmergeable` with the *message string* as first argument instead of the
PR, so the `stage_batches` handler — which reads `pr = e.args[0]` and then
accesses `pr.display_name` / sets `pr.state = 'error'` — hits an
`AttributeError`: the offending PR's state is never set to "error" and no
merge-failed notification is sent, contradicting the claim (the code
contradicts the intent every other `Unmergeable` raise site shows). -/
theorem C4_multi_parent_handler_crashes :
    StageLevel.stage_merge c4pr c4env "tgtHead" =
      .error (.unmergeable (.inr c4msg) none) ∧
    StageLevel.toMergeError c4pr (.unmergeable (.inr c4msg) none) =
      some ⟨.unmergeable, .inr c4msg, none⟩ ∧
    StageLevel.handle_merge_error false ⟨.unmergeable, .inr c4msg, none⟩ =
      .error .attributeError ∧
    StageLevel.handle_merge_error true ⟨.unmergeable, .inr c4msg, none⟩ =
      .error .attributeError := by
  refine ⟨rfl, rfl, rfl, rfl⟩

end Runbot

namespace Runbot

/-! ## Claim C10 -/

/-- C10: an HTTP-level failure of the visibility endpoint makes
`check_visibility` return `false` (the `if not resp.ok` guard) instead of
raising a protocol error, so a schedule of failing attempts is consumed by
the bounded retry and surfaces as the visibility timeout, never as a
malformed-framing protocol failure — whatever bytes the failing responses
carry. -/
theorem C10_http_failure_times_out
    (bn eh : String) (resp : Vis.Response) (resps : List Vis.Response)
    (h : resp.respOk = false) (hall : ∀ r ∈ resps, r.respOk = false) :
    Vis.check_visibility bn eh resp = .ok false ∧
    Vis.wait_for_visibility (Vis.check_visibility bn eh) resps = .error .timeout := by
  have hone : ∀ r : Vis.Response, r.respOk = false →
      Vis.check_visibility bn eh r = .ok false := by
    intro r hr
    unfold Vis.check_visibility
    simp [hr]
  refine ⟨hone resp h, ?_⟩
  induction resps with
  | nil => rfl
  | cons r rs ih =>
    have hr := hall r (by simp)
    unfold Vis.wait_for_visibility
    rw [hone r hr]
    exact ih (fun x hx => hall x (by simp [hx]))

/-- Witness for C10: four HTTP-failed responses whose bodies are malformed
pkt-line framings; the visibility wait reports a timeout, not a protocol
error. -/
theorem C10_http_failure_times_out_witness :
    (Vis.Response.mk false "not a pkt line".data).respOk = false ∧
    (∀ r ∈ List.replicate 4 (Vis.Response.mk false "not a pkt line".data),
      r.respOk = false) ∧
    (Vis.check_visibility "master" "feedc0de" ⟨false, "not a pkt line".data⟩ =
      .ok false ∧
    Vis.wait_for_visibility (Vis.check_visibility "master" "feedc0de")
      (List.replicate 4 ⟨false, "not a pkt line".data⟩) = .error .timeout) :=
  ⟨rfl, by decide,
    C10_http_failure_times_out "master" "feedc0de" ⟨false, "not a pkt line".data⟩
      (List.replicate 4 ⟨false, "not a pkt line".data⟩) rfl (by decide)⟩

end Runbot


namespace Runbot.StageLevel

/-- Looking up a key just written by a Python dict insertion yields the
written value. -/
theorem lookup_dinsert (m : List (String × String)) (k v : String) :
    (dinsert m k v).lookup k = some v := by
  induction m with
  | nil => simp [dinsert, List.lookup]
  | cons p t ih =>
    by_cases hpk : p.1 = k
    · simp [dinsert, List.any_cons, hpk, List.lookup]
    · have hne : (k == p.1) = false := beq_eq_false_iff_ne.mpr (Ne.symm hpk)
      cases hany : t.any (fun q => decide (q.1 = k)) with
      | true =>
        have h2 : dinsert t k v = t.map (fun q => if q.1 = k then (k, v) else q) := by
          simp [dinsert, hany]
        have h1 : dinsert (p :: t) k v =
            p :: t.map (fun q => if q.1 = k then (k, v) else q) := by
          simp [dinsert, List.any_cons, hpk, hany]
        rw [h1]
        simp only [List.lookup, hne]
        rw [← h2]
        exact ih
      | false =>
        have h2 : dinsert t k v = t ++ [(k, v)] := by
          simp [dinsert, hany]
        have h1 : dinsert (p :: t) k v = p :: (t ++ [(k, v)]) := by
          simp [dinsert, List.any_cons, hpk, hany]
        rw [h1]
        simp only [List.lookup, hne]
        rw [← h2]
        exact ih

end Runbot.StageLevel

namespace Runbot

/-! ## Claim C3 -/

/-- C3: every strategy that succeeds writes a `commits_map` to the PR whose
empty-key entry is exactly the head the strategy returns (the final commit
the PR was collapsed or rebased into). -/
theorem C3_commits_map_empty_key
    (pr : StageLevel.PrRec) (env : StageLevel.StageEnv) (refHead : String) :
    (∀ sr, StageLevel.stage_squash pr env refHead = .ok sr →
      sr.pr.commitsMap.lookup "" = some sr.head) ∧
    (∀ sr, StageLevel.stage_rebase_ff pr env refHead = .ok sr →
      sr.pr.commitsMap.lookup "" = some sr.head) ∧
    (∀ sr, StageLevel.stage_rebase_merge pr env refHead = .ok sr →
      sr.pr.commitsMap.lookup "" = some sr.head) ∧
    (∀ sr, StageLevel.stage_merge pr env refHead = .ok sr →
      sr.pr.commitsMap.lookup "" = some sr.head) := by
  refine ⟨?_, ?_, ?_, ?_⟩ <;>
  · intro sr h
    first
    | unfold StageLevel.stage_squash at h
    | unfold StageLevel.stage_rebase_ff at h
    | unfold StageLevel.stage_rebase_merge at h
    | unfold StageLevel.stage_merge at h
    dsimp only at h
    repeat' split at h
    all_goals
      first
      | (injection h with h2
         subst h2
         exact StageLevel.lookup_dinsert _ _ _)
      | injection h

end Runbot

namespace Runbot

/-- Concrete PR for the C3 witness. -/
def c3pr : StageLevel.PrRec :=
  ⟨0, "org/repo", 5, "B", "master", 1, false, "m", none, "ready", [], none, "lg"⟩

/-- Concrete live environment for the C3 witness: two commits, remote
operations all succeeding. -/
def c3env : StageLevel.StageEnv where
  prdictCommits := 2
  baseRef := "master"
  prCommits := [⟨"A", [], "feat: a", "au", "au@x", "co", "co@x"⟩,
                ⟨"B", ["A"], "feat: b", "au", "au@x", "co", "co@x"⟩]
  mkMessage := "m"
  buildMsgOfPr := ⟨"title", []⟩
  buildMsgOfStr := fun s => ⟨s, []⟩
  branchByName := fun _ => some ⟨1, "master"⟩
  gh := ⟨fun c _ => some ("M" ++ c, "T" ++ c), fun tr _ => "N" ++ tr,
    fun _ _ _ _ => some ("R", [("A", "A2"), ("B", "B2")]), fun _ => none⟩

/-- Witness for C3: all four strategies run to success on the concrete
environment and each resulting `commits_map` maps the empty key to the
returned head. -/
theorem C3_commits_map_empty_key_witness :
    ((StageLevel.okOrDefault (StageLevel.stage_squash c3pr c3env "T0")).pr.commitsMap.lookup ""
      = some (StageLevel.okOrDefault (StageLevel.stage_squash c3pr c3env "T0")).head) ∧
    ((StageLevel.okOrDefault (StageLevel.stage_rebase_ff c3pr c3env "T0")).pr.commitsMap.lookup ""
      = some (StageLevel.okOrDefault (StageLevel.stage_rebase_ff c3pr c3env "T0")).head) ∧
    ((StageLevel.okOrDefault (StageLevel.stage_rebase_merge c3pr c3env "T0")).pr.commitsMap.lookup ""
      = some (StageLevel.okOrDefault (StageLevel.stage_rebase_merge c3pr c3env "T0")).head) ∧
    ((StageLevel.okOrDefault (StageLevel.stage_merge c3pr c3env "T0")).pr.commitsMap.lookup ""
      = some (StageLevel.okOrDefault (StageLevel.stage_merge c3pr c3env "T0")).head) :=
  ⟨(C3_commits_map_empty_key c3pr c3env "T0").1 _ rfl,
   (C3_commits_map_empty_key c3pr c3env "T0").2.1 _ rfl,
   (C3_commits_map_empty_key c3pr c3env "T0").2.2.1 _ rfl,
   (C3_commits_map_empty_key c3pr c3env "T0").2.2.2 _ rfl⟩

end Runbot

namespace Runbot

/-! ## Claim C6 -/

/-- Concrete pool for the C6 counterexample: a patch-labelled PR with id 7
and a PR whose plain label is the text `7`. -/
def c6pool : List Sel.SPR :=
  [⟨7, 1, "x:patch-1", 2, "ready", false⟩, ⟨3, 1, "7", 2, "ready", false⟩]

/-- C6 counterexample: the grouping key casts the patch PR's id to text
(`pr.id::text` in the `CASE`), which collides with another PR whose plain
label is the same text — PR 7 (label `x:patch-1`) and PR 3 (label `"7"`)
land in one group, so the patch-labelled PR does *not* form its own
singleton group. -/
theorem C6_counterexample :
    Sel.isPatchLabel "x:patch-1" = true ∧
    Sel.isPatchLabel "7" = false ∧
    Sel.dedupKey ⟨7, 1, "x:patch-1", 2, "ready", false⟩ =
      Sel.dedupKey ⟨3, 1, "7", 2, "ready", false⟩ ∧
    Sel.groupOf 1 c6pool ⟨7, 1, "x:patch-1", 2, "ready", false⟩ =
      [⟨7, 1, "x:patch-1", 2, "ready", false⟩, ⟨3, 1, "7", 2, "ready", false⟩] := by
  refine ⟨by decide, by decide, by decide, by decide⟩

/-- C6 as amended: two PRs sharing a non-patch label on the same target
always land in the same candidate group; and a patch-labelled PR forms its
own group provided no other retained PR renders the same dedup key — no
other patch PR whose id renders to the same text, and no PR whose plain
label equals the decimal text of its id. -/
theorem C6_grouping_amended (branch : Nat) (pool : List Sel.SPR)
    (p q r : Sel.SPR)
    (hp : p ∈ Sel.inPool branch pool) (hq : q ∈ Sel.inPool branch pool)
    (hr : r ∈ Sel.inPool branch pool)
    (hlab : p.label = q.label) (hnp : Sel.isPatchLabel p.label = false)
    (hrp : Sel.isPatchLabel r.label = true)
    (hrid : ∀ s ∈ Sel.inPool branch pool, s ≠ r →
      Sel.isPatchLabel s.label = true → toString s.id ≠ toString r.id)
    (hrlab : ∀ s ∈ Sel.inPool branch pool,
      Sel.isPatchLabel s.label = false → s.label ≠ toString r.id) :
    (Sel.groupOf branch pool p = Sel.groupOf branch pool q ∧
      q ∈ Sel.groupOf branch pool p) ∧
    (r ∈ Sel.groupOf branch pool r ∧
      ∀ s ∈ Sel.groupOf branch pool r, s = r) := by
  have hnq : Sel.isPatchLabel q.label = false := hlab ▸ hnp
  have hkeypq : Sel.dedupKey p = Sel.dedupKey q := by
    simp [Sel.dedupKey, hnp, hnq, hlab]
  refine ⟨⟨?_, ?_⟩, ?_, ?_⟩
  · unfold Sel.groupOf
    rw [hkeypq]
  · unfold Sel.groupOf
    rw [List.mem_filter]
    exact ⟨hq, by simp [hkeypq]⟩
  · unfold Sel.groupOf
    rw [List.mem_filter]
    exact ⟨hr, by simp⟩
  · intro s hs
    unfold Sel.groupOf at hs
    rw [List.mem_filter] at hs
    obtain ⟨hsin, hskey⟩ := hs
    have hskey' : Sel.dedupKey s = Sel.dedupKey r := by simpa using hskey
    have hrkey : Sel.dedupKey r = toString r.id := by
      unfold Sel.dedupKey; rw [hrp]; simp
    by_contra hne
    cases hsp : Sel.isPatchLabel s.label with
    | true =>
      have : Sel.dedupKey s = toString s.id := by
        unfold Sel.dedupKey; rw [hsp]; simp
      exact hrid s hsin hne hsp (by rw [← this, hskey', hrkey])
    | false =>
      have : Sel.dedupKey s = s.label := by
        unfold Sel.dedupKey; rw [hsp]; simp
      exact hrlab s hsin hsp (by rw [← this, hskey', hrkey])

/-- Witness for C6 as amended: PRs 3 and 4 share label `owner:fix` and land
in one group; patch PR 7 has no key collision in this pool and forms a
singleton group. -/
theorem C6_grouping_amended_witness :
    ((⟨3, 1, "owner:fix", 2, "ready", false⟩ : Sel.SPR) ∈
      Sel.inPool 1 [⟨3, 1, "owner:fix", 2, "ready", false⟩,
        ⟨4, 1, "owner:fix", 2, "ready", false⟩, ⟨7, 1, "x:patch-1", 2, "ready", false⟩]) ∧
    ((Sel.groupOf 1 [⟨3, 1, "owner:fix", 2, "ready", false⟩,
        ⟨4, 1, "owner:fix", 2, "ready", false⟩, ⟨7, 1, "x:patch-1", 2, "ready", false⟩]
        ⟨3, 1, "owner:fix", 2, "ready", false⟩ =
      Sel.groupOf 1 [⟨3, 1, "owner:fix", 2, "ready", false⟩,
        ⟨4, 1, "owner:fix", 2, "ready", false⟩, ⟨7, 1, "x:patch-1", 2, "ready", false⟩]
        ⟨4, 1, "owner:fix", 2, "ready", false⟩ ∧
      (⟨4, 1, "owner:fix", 2, "ready", false⟩ : Sel.SPR) ∈
        Sel.groupOf 1 [⟨3, 1, "owner:fix", 2, "ready", false⟩,
          ⟨4, 1, "owner:fix", 2, "ready", false⟩, ⟨7, 1, "x:patch-1", 2, "ready", false⟩]
          ⟨3, 1, "owner:fix", 2, "ready", false⟩) ∧
     ((⟨7, 1, "x:patch-1", 2, "ready", false⟩ : Sel.SPR) ∈
        Sel.groupOf 1 [⟨3, 1, "owner:fix", 2, "ready", false⟩,
          ⟨4, 1, "owner:fix", 2, "ready", false⟩, ⟨7, 1, "x:patch-1", 2, "ready", false⟩]
          ⟨7, 1, "x:patch-1", 2, "ready", false⟩ ∧
      ∀ s ∈ Sel.groupOf 1 [⟨3, 1, "owner:fix", 2, "ready", false⟩,
          ⟨4, 1, "owner:fix", 2, "ready", false⟩, ⟨7, 1, "x:patch-1", 2, "ready", false⟩]
          ⟨7, 1, "x:patch-1", 2, "ready", false⟩,
        s = ⟨7, 1, "x:patch-1", 2, "ready", false⟩)) :=
  ⟨by decide,
   C6_grouping_amended 1 _ _ _ _ (by decide) (by decide) (by decide) rfl rfl rfl
     (by decide) (by decide)⟩

end Runbot

namespace Runbot

/-! ## Claim C7 -/

set_option maxHeartbeats 1600000 in
/-- C7: with no configured merge method, a single live commit selects the
rebase-fast-forward strategy (and any successful staging used it), while
more than one (or zero) live commits can never produce a successful
staging — every run fails before any strategy is applied (the `match`
falls through, or an earlier check raises). -/
theorem C7_default_method
    (pr : StageLevel.PrRec) (env : StageLevel.StageEnv) (refHead : String)
    (hnone : pr.mergeMethod = none) :
    (env.prdictCommits = 1 →
      StageLevel.chooseMethod pr env.prdictCommits = some .rebase_ff ∧
      ∀ m h, (StageLevel.stage pr env refHead).result = .ok (m, h) →
        m = .rebase_ff) ∧
    (env.prdictCommits ≠ 1 →
      StageLevel.resultIsError (StageLevel.stage pr env refHead).result = true) := by
  constructor
  · intro h1
    have hch : StageLevel.chooseMethod pr env.prdictCommits = some .rebase_ff := by
      simp [StageLevel.chooseMethod, hnone, h1]
    refine ⟨hch, ?_⟩
    intro m h hmk
    unfold StageLevel.stage at hmk
    dsimp only at hmk
    rw [hch] at hmk
    unfold StageLevel.stageChecked at hmk
    dsimp only at hmk
    repeat' split at hmk
    all_goals
      first
      | (injection hmk with h2
         injection h2 with h3 h4
         exact h3.symm)
      | injection hmk
  · intro h2
    have hch : StageLevel.chooseMethod pr env.prdictCommits = none := by
      simp [StageLevel.chooseMethod, hnone, h2]
    unfold StageLevel.stage
    dsimp only
    rw [hch]
    unfold StageLevel.stageChecked
    dsimp only
    repeat' split
    all_goals rfl

end Runbot

namespace Runbot

/-- Concrete environment for the C7 witness: one live commit, no configured
merge method (`c3pr.mergeMethod = none`). -/
def c7env : StageLevel.StageEnv :=
  { c3env with
    prdictCommits := 1
    prCommits := [⟨"B", ["A"], "feat: b", "au", "au@x", "co", "co@x"⟩] }

/-- Witness for C7 at a concrete single-commit PR without a merge method. -/
theorem C7_default_method_witness :
    c3pr.mergeMethod = none ∧
    ((c7env.prdictCommits = 1 →
      StageLevel.chooseMethod c3pr c7env.prdictCommits = some .rebase_ff ∧
      ∀ m h, (StageLevel.stage c3pr c7env "T0").result = .ok (m, h) →
        m = .rebase_ff) ∧
     (c7env.prdictCommits ≠ 1 →
      StageLevel.resultIsError (StageLevel.stage c3pr c7env "T0").result = true)) :=
  ⟨rfl, C7_default_method c3pr c7env "T0" rfl⟩

end Runbot

namespace Runbot.BatchLevel

/-- Value of the rollback fold at a repository: repositories touched by an
earlier success are reset to their slice head, others keep their value. -/
theorem foldl_setRef_slice (sl : Nat → String) :
    ∀ (l : List (BPR × String)) (rf : Nat → String) (r : Nat),
      (l.foldl (fun f ph => setRef f ph.1.repo (sl ph.1.repo)) rf) r =
        if l.any (fun ph => ph.1.repo = r) then sl r else rf r := by
  intro l
  induction l with
  | nil => intro rf r; simp
  | cons ph t ih =>
    intro rf r
    rw [List.foldl_cons, ih, List.any_cons]
    by_cases hph : ph.1.repo = r
    · subst hph
      by_cases ht : t.any (fun q => q.1.repo = ph.1.repo)
      · simp [ht]
      · simp [ht, setRef]
    · have hph' : ¬ r = ph.1.repo := fun hc => hph hc.symm
      by_cases ht : t.any (fun q => q.1.repo = r)
      · simp [ht, hph]
      · simp [ht, hph, setRef, hph']

/-- Core induction for C1: if the batch loop fails, the failure data
reports unchanged slice heads, fully rolled-back refs (under the
at-batch-start invariant), slice-head resets for every earlier success,
the pre-read head for an otherwise-untouched failing repository, and the
exact rollback action sequence. -/
theorem stage_batch_go_failed (outcome : BPR → StageOut) (s0 : BState) :
    ∀ (prs : List BPR) (newHeads : List (BPR × String)) (s : BState) (i : FailInfo),
      s.slice = s0.slice →
      (∀ r, ¬ newHeads.any (fun ph => ph.1.repo = r) → s.refs r = s0.refs r) →
      stage_batch_go outcome prs newHeads s = .failed i →
      i.slice = s0.slice ∧
      ((∀ r, s0.refs r = s0.slice r) → ∀ r, i.refs r = s0.refs r) ∧
      (∀ ph ∈ i.earlier, i.refs ph.1.repo = s0.slice ph.1.repo) ∧
      ((∀ ph ∈ i.earlier, ph.1.repo ≠ i.failPr.repo) →
        i.refs i.failPr.repo = i.preRead) ∧
      i.actions = (i.failPr.repo, i.preRead) ::
        i.earlier.map (fun ph => (ph.1.repo, s0.slice ph.1.repo)) := by
  intro prs
  induction prs with
  | nil =>
    intro newHeads s i _ _ h
    exact absurd h (by simp [stage_batch_go])
  | cons pr rest ih =>
    intro newHeads s i hsl hP h
    unfold stage_batch_go at h
    dsimp only at h
    cases hout : outcome pr with
    | ok hd =>
      rw [hout] at h
      refine ih (newHeads ++ [(pr, hd)]) _ i (by simpa using hsl) ?_ h
      intro r hr
      rw [List.any_append] at hr
      simp only [Bool.or_eq_true, not_or] at hr
      obtain ⟨hr1, hr2⟩ := hr
      have hpr : ¬ pr.repo = r := by simpa using hr2
      simp only [setRef]
      rw [if_neg (fun hc => hpr hc.symm)]
      exact hP r (by simpa using hr1)
    | fail partialHead =>
      rw [hout] at h
      injection h with h
      subst h
      dsimp only
      have hfold := foldl_setRef_slice s.slice newHeads
      have hrefs : ∀ r,
          (newHeads.foldl (fun rf ph => setRef rf ph.1.repo (s.slice ph.1.repo))
            (setRef (setRef s.refs pr.repo partialHead) pr.repo (s.refs pr.repo))) r =
          if newHeads.any (fun ph => ph.1.repo = r) then s.slice r
          else if r = pr.repo then s.refs pr.repo else s.refs r := by
        intro r
        rw [hfold]
        by_cases hc : newHeads.any (fun ph => ph.1.repo = r)
        · simp [hc]
        · simp only [hc, if_false]
          by_cases hr : r = pr.repo
          · subst hr; simp [setRef]
          · simp [setRef, hr]
      refine ⟨by rw [hsl], ?_, ?_, ?_, ?_⟩
      · intro hInv r
        rw [hrefs r]
        by_cases hc : newHeads.any (fun ph => ph.1.repo = r)
        · rw [if_pos hc, hsl, ← hInv r]
        · rw [if_neg hc]
          by_cases hr : r = pr.repo
          · subst hr
            rw [if_pos rfl]
            exact hP _ (by simpa using hc)
          · rw [if_neg hr]
            exact hP _ (by simpa using hc)
      · intro ph hmem
        rw [hrefs ph.1.repo, if_pos (List.any_eq_true.mpr ⟨ph, hmem, by simp⟩),
          hsl]
      · intro hout2
        rw [hrefs pr.repo]
        have hc : ¬ newHeads.any (fun ph => ph.1.repo = pr.repo) := by
          intro hc
          rcases List.any_eq_true.mp hc with ⟨ph, hmem, hrep⟩
          exact hout2 ph hmem (by simpa using hrep)
        rw [if_neg hc, if_pos rfl]
      · have : newHeads.map (fun ph => (ph.1.repo, s.slice ph.1.repo)) =
            newHeads.map (fun ph => (ph.1.repo, s0.slice ph.1.repo)) := by
          rw [hsl]
        rw [this]

end Runbot.BatchLevel

namespace Runbot

/-! ## Claim C1 -/

/-- C1: when staging a batch fails after some of its PRs succeeded, the
failure escapes only after every repository's temporary ref is restored:
the failing PR's repository is reset to the head read immediately before
that PR was staged, every repository touched by an earlier success of the
batch is reset to its `StagingSlice` head, the rollback `set_ref` sequence
is exactly these resets, and — since at batch start every temporary ref
equals its slice head, slice heads being advanced only after a whole batch
succeeds — every repository's ref ends at the value it held immediately
before the batch began, with slice heads unchanged. -/
theorem C1_rollback
    (outcome : BatchLevel.BPR → BatchLevel.StageOut)
    (prs : List BatchLevel.BPR) (s : BatchLevel.BState)
    (hInv : ∀ r, s.refs r = s.slice r)
    (hFail : (BatchLevel.stage_batch outcome prs s).isFailed = true) :
    (∀ r, ((BatchLevel.stage_batch outcome prs s).asFailed).refs r = s.refs r) ∧
    (∀ r, ((BatchLevel.stage_batch outcome prs s).asFailed).slice r = s.slice r) ∧
    (∀ ph ∈ ((BatchLevel.stage_batch outcome prs s).asFailed).earlier,
      ((BatchLevel.stage_batch outcome prs s).asFailed).refs ph.1.repo =
        s.slice ph.1.repo) ∧
    ((∀ ph ∈ ((BatchLevel.stage_batch outcome prs s).asFailed).earlier,
        ph.1.repo ≠ ((BatchLevel.stage_batch outcome prs s).asFailed).failPr.repo) →
      ((BatchLevel.stage_batch outcome prs s).asFailed).refs
          ((BatchLevel.stage_batch outcome prs s).asFailed).failPr.repo =
        ((BatchLevel.stage_batch outcome prs s).asFailed).preRead) ∧
    ((BatchLevel.stage_batch outcome prs s).asFailed).actions =
      (((BatchLevel.stage_batch outcome prs s).asFailed).failPr.repo,
        ((BatchLevel.stage_batch outcome prs s).asFailed).preRead) ::
      ((BatchLevel.stage_batch outcome prs s).asFailed).earlier.map
        (fun ph => (ph.1.repo, s.slice ph.1.repo)) := by
  cases heq : BatchLevel.stage_batch outcome prs s with
  | staged st nh =>
    rw [heq] at hFail
    exact absurd hFail (by simp [BatchLevel.SBResult.isFailed])
  | failed i =>
    have := BatchLevel.stage_batch_go_failed outcome s prs [] s i rfl
      (fun r _ => rfl) heq
    obtain ⟨hsl, hrefs, hearlier, hfailrepo, hactions⟩ := this
    have hslpt : ∀ r, i.slice r = s.slice r := fun r => congrFun hsl r
    exact ⟨hrefs hInv, hslpt, hearlier, hfailrepo, hactions⟩

/-- Concrete ref assignment for the C1 witness. -/
def c1refs : Nat → String := fun r => if r = 0 then "a0" else "b0"

/-- Concrete attempt state for the C1 witness (refs and slice heads agree
at batch start). -/
def c1state : BatchLevel.BState := ⟨c1refs, c1refs⟩

/-- Concrete per-PR outcomes for the C1 witness: the PR on repository 0
stages fine, the one on repository 1 raises after partially updating the
ref. -/
def c1out : BatchLevel.BPR → BatchLevel.StageOut :=
  fun p => if p.repo = 0 then .ok "h0new" else .fail "garbage"

/-- Witness for C1: a two-PR batch over two repositories in which the
second PR fails after the first succeeded. -/
theorem C1_rollback_witness :
    (∀ r, c1state.refs r = c1state.slice r) ∧
    (BatchLevel.stage_batch c1out [⟨0⟩, ⟨1⟩] c1state).isFailed = true ∧
    ((∀ r, ((BatchLevel.stage_batch c1out [⟨0⟩, ⟨1⟩] c1state).asFailed).refs r =
        c1state.refs r) ∧
     (∀ r, ((BatchLevel.stage_batch c1out [⟨0⟩, ⟨1⟩] c1state).asFailed).slice r =
        c1state.slice r) ∧
     (∀ ph ∈ ((BatchLevel.stage_batch c1out [⟨0⟩, ⟨1⟩] c1state).asFailed).earlier,
       ((BatchLevel.stage_batch c1out [⟨0⟩, ⟨1⟩] c1state).asFailed).refs ph.1.repo =
         c1state.slice ph.1.repo) ∧
     ((∀ ph ∈ ((BatchLevel.stage_batch c1out [⟨0⟩, ⟨1⟩] c1state).asFailed).earlier,
         ph.1.repo ≠
           ((BatchLevel.stage_batch c1out [⟨0⟩, ⟨1⟩] c1state).asFailed).failPr.repo) →
       ((BatchLevel.stage_batch c1out [⟨0⟩, ⟨1⟩] c1state).asFailed).refs
           ((BatchLevel.stage_batch c1out [⟨0⟩, ⟨1⟩] c1state).asFailed).failPr.repo =
         ((BatchLevel.stage_batch c1out [⟨0⟩, ⟨1⟩] c1state).asFailed).preRead) ∧
     ((BatchLevel.stage_batch c1out [⟨0⟩, ⟨1⟩] c1state).asFailed).actions =
       (((BatchLevel.stage_batch c1out [⟨0⟩, ⟨1⟩] c1state).asFailed).failPr.repo,
         ((BatchLevel.stage_batch c1out [⟨0⟩, ⟨1⟩] c1state).asFailed).preRead) ::
       ((BatchLevel.stage_batch c1out [⟨0⟩, ⟨1⟩] c1state).asFailed).earlier.map
         (fun ph => (ph.1.repo, c1state.slice ph.1.repo))) :=
  ⟨fun _ => rfl, rfl,
    C1_rollback c1out [⟨0⟩, ⟨1⟩] c1state (fun _ => rfl) rfl⟩

end Runbot

namespace Runbot.StageLevel

/-- The live head sha `pr_commits[-1]['sha']` (empty for an empty list). -/
def liveHeadSha (env : StageEnv) : String :=
  ((env.prCommits.getLast?).map (·.sha)).getD ""

/-- A one-armed conditional list is empty only if its condition fails. -/
theorem ifList_eq_nil {P : Prop} [Decidable P] {x : String}
    (h : (if P then [x] else []) = []) : ¬P := by
  intro hp
  rw [if_pos hp] at h
  exact absurd h (by simp)

end Runbot.StageLevel

namespace Runbot

/-! ## Claim C2 -/

/-- Concrete cached PR for the C2 counterexample: cached `squash = true`
(single commit) while the live PR has two commits. -/
def c2pr : StageLevel.PrRec :=
  ⟨0, "org/repo", 9, "B", "master", 1, true, "m", some .merge, "ready",
    [], none, "lg"⟩

/-- C2 counterexample: the chained comparison `pr.squash != commits == 1`
only fires when the live commit count is exactly 1, so a PR whose live
single-commit-ness disagrees with its cached `squash = true` flag (two
live commits here) raises no `Mismatch` at all: staging proceeds to the
merge strategy and succeeds, and the PR's state is not reset to
"opened" — refuting the claim as stated. -/
theorem C2_counterexample :
    c2pr.squash = true ∧ c3env.prdictCommits = 2 ∧
    ¬ StageLevel.squashMismatch c2pr c3env.prdictCommits ∧
    (StageLevel.stage c2pr c3env "T0").result = .ok (.merge, "MB") ∧
    ((StageLevel.stage c2pr c3env "T0").pr.map (·.prState)) = some "ready" ∧
    StageLevel.resultIsMismatch (StageLevel.stage c2pr c3env "T0").result = false := by
  refine ⟨rfl, rfl, by decide, rfl, rfl, rfl⟩

set_option maxHeartbeats 1600000 in
/-- C2 as amended: for a PR that passes the commit-count and email
pre-checks, whose live target (when it changed) is still a managed branch,
and which exhibits a detected discrepancy — live head, live target, live
message, or the one detected direction of single-commit-ness (live count
exactly one against a false cached squash flag) — `stage` raises a
`Mismatch` carrying the per-field diff, writes the live values and state
"opened" back to the PR, and performs no temporary-ref mutation for the
PR's repository. -/
theorem C2_mismatch_amended
    (pr : StageLevel.PrRec) (env : StageLevel.StageEnv) (refHead : String)
    (h50 : env.prdictCommits > 50 →
      pr.mergeMethod = some .merge ∨ pr.mergeMethod = some .squash)
    (h250 : ¬ env.prdictCommits > 250)
    (hmail : ∀ c ∈ env.prCommits, ¬(c.authorEmail = "" ∨ c.committerEmail = ""))
    (hne : env.prCommits ≠ [])
    (htgt : pr.targetName ≠ env.baseRef → (env.branchByName env.baseRef).isSome)
    (hdiff : pr.head ≠ StageLevel.liveHeadSha env ∨ pr.targetName ≠ env.baseRef ∨
      StageLevel.squashMismatch pr env.prdictCommits ∨ pr.message ≠ env.mkMessage) :
    StageLevel.resultIsMismatch (StageLevel.stage pr env refHead).result = true ∧
    (StageLevel.stage pr env refHead).refOps = [] ∧
    ((StageLevel.stage pr env refHead).pr.map (·.prState)) = some "opened" ∧
    ((StageLevel.stage pr env refHead).pr.map (·.head)) =
      some (StageLevel.liveHeadSha env) ∧
    (pr.message ≠ env.mkMessage →
      ((StageLevel.stage pr env refHead).pr.map (·.message)) = some env.mkMessage) ∧
    (StageLevel.squashMismatch pr env.prdictCommits →
      ((StageLevel.stage pr env refHead).pr.map (·.squash)) = some true) ∧
    (pr.targetName ≠ env.baseRef →
      ((StageLevel.stage pr env refHead).pr.map (·.targetName)) =
        (env.branchByName env.baseRef).map (·.name)) ∧
    (pr.head ≠ StageLevel.liveHeadSha env →
      ("Head", pr.head, StageLevel.liveHeadSha env) ∈
        StageLevel.resultDiff (StageLevel.stage pr env refHead).result) ∧
    (pr.message ≠ env.mkMessage →
      ("Message", pr.message, env.mkMessage) ∈
        StageLevel.resultDiff (StageLevel.stage pr env refHead).result) := by
  have hne' : env.prCommits.getLast?.isSome := by
    rw [List.getLast?_isSome]
    exact hne
  obtain ⟨lastC, hlast⟩ := Option.isSome_iff_exists.mp hne'
  have hlive : StageLevel.liveHeadSha env = lastC.sha := by
    unfold StageLevel.liveHeadSha
    rw [hlast]
    rfl
  have hcond1 : ¬(env.prdictCommits > 50 ∧
      StageLevel.chooseMethod pr env.prdictCommits = none) := by
    rintro ⟨hgt, hch⟩
    rcases h50 hgt with h | h <;> simp [StageLevel.chooseMethod, h] at hch
  have hcond2 : ¬(env.prdictCommits > 50 ∧
      (StageLevel.chooseMethod pr env.prdictCommits = some .rebase_merge ∨
       StageLevel.chooseMethod pr env.prdictCommits = some .rebase_ff)) := by
    rintro ⟨hgt, hch⟩
    rcases h50 hgt with h | h <;> rcases hch with hch | hch <;>
      simp [StageLevel.chooseMethod, h] at hch
  have hfind : env.prCommits.find?
      (fun c => c.authorEmail = "" || c.committerEmail = "") = none := by
    rw [List.find?_eq_none]
    intro c hc
    simpa using hmail c hc
  have hstage : StageLevel.stage pr env refHead =
      StageLevel.stageChecked pr env refHead
        (StageLevel.chooseMethod pr env.prdictCommits) lastC.sha := by
    unfold StageLevel.stage
    dsimp only
    rw [if_neg hcond1, if_neg hcond2, if_neg h250, hfind, hlast]
  have htgtcond : ¬(pr.targetName ≠ env.baseRef ∧
      env.branchByName env.baseRef = none) := by
    rintro ⟨ht, hn⟩
    have := htgt ht
    rw [hn] at this
    exact absurd this (by simp)
  have hinv : ((if pr.head ≠ lastC.sha then ["head"] else []) ++
      (if pr.targetName ≠ env.baseRef then ["target"] else []) ++
      (if StageLevel.squashMismatch pr env.prdictCommits then ["squash"] else []) ++
      (if pr.message ≠ env.mkMessage then ["message"] else [])) ≠ [] := by
    intro hcontra
    simp only [List.append_eq_nil] at hcontra
    obtain ⟨⟨⟨h1, h2⟩, h3⟩, h4⟩ := hcontra
    rcases hdiff with h | h | h | h
    · exact StageLevel.ifList_eq_nil h1 (hlive ▸ h)
    · exact StageLevel.ifList_eq_nil h2 h
    · exact StageLevel.ifList_eq_nil h3 h
    · exact StageLevel.ifList_eq_nil h4 h
  have hres : StageLevel.stage pr env refHead =
      ⟨.error (.mismatch
        ((if pr.head ≠ lastC.sha then ["head"] else []) ++
         (if pr.targetName ≠ env.baseRef then ["target"] else []) ++
         (if StageLevel.squashMismatch pr env.prdictCommits then ["squash"] else []) ++
         (if pr.message ≠ env.mkMessage then ["message"] else []))
        ((if pr.head ≠ lastC.sha then [("Head", pr.head, lastC.sha)] else []) ++
         (if pr.targetName ≠ env.baseRef then
           [("Target branch", pr.targetName,
             (((env.branchByName env.baseRef).map (·.name)).getD ""))] else []) ++
         (if StageLevel.squashMismatch pr env.prdictCommits then
           [("Single commit", StageLevel.pyBoolStr pr.squash,
             StageLevel.pyBoolStr (env.prdictCommits = 1))] else []) ++
         (if pr.message ≠ env.mkMessage then
           [("Message", pr.message, env.mkMessage)] else []))),
       some { pr with
         head := lastC.sha
         targetName := if pr.targetName ≠ env.baseRef then
             (((env.branchByName env.baseRef).map (·.name)).getD pr.targetName)
           else pr.targetName
         targetId := if pr.targetName ≠ env.baseRef then
             (((env.branchByName env.baseRef).map (·.id)).getD pr.targetId)
           else pr.targetId
         squash := if StageLevel.squashMismatch pr env.prdictCommits then
             env.prdictCommits = 1
           else pr.squash
         message := if pr.message ≠ env.mkMessage then env.mkMessage else pr.message
         prState := "opened" },
       []⟩ := by
    rw [hstage]
    unfold StageLevel.stageChecked
    dsimp only
    rw [if_neg htgtcond, if_pos hinv]
  rw [hres]
  refine ⟨rfl, rfl, rfl, ?_, ?_, ?_, ?_, ?_, ?_⟩
  · simp [hlive]
  · intro hmsg
    simp [if_pos hmsg]
  · intro hs
    simp only [Option.map_some]
    rw [if_pos hs]
    simp [hs.2]
  · intro ht
    obtain ⟨br, hbr⟩ := Option.isSome_iff_exists.mp (htgt ht)
    simp only [Option.map_some]
    rw [if_pos ht, hbr]
    simp
  · intro hh
    rw [hlive] at hh
    simp only [StageLevel.resultDiff]
    rw [hlive]
    simp [if_pos hh]
  · intro hmsg
    simp only [StageLevel.resultDiff]
    simp [if_pos hmsg]

end Runbot

namespace Runbot

/-- Concrete cached PR for the C2 witness: cached head `cafef00d`. -/
def c2wpr : StageLevel.PrRec :=
  ⟨0, "org/repo", 11, "cafef00d", "master", 1, true, "m", some .merge, "ready",
    [], none, "lg"⟩

/-- Concrete live environment for the C2 witness: live head `deadbeef`. -/
def c2wenv : StageLevel.StageEnv where
  prdictCommits := 1
  baseRef := "master"
  prCommits := [⟨"deadbeef", [], "m1", "a", "a@x", "c", "c@x"⟩]
  mkMessage := "m"
  buildMsgOfPr := ⟨"m", []⟩
  buildMsgOfStr := fun s => ⟨s, []⟩
  branchByName := fun _ => some ⟨1, "master"⟩
  gh := ⟨fun c _ => some ("M" ++ c, "T" ++ c), fun tr _ => "N" ++ tr,
    fun _ _ _ _ => some ("R", []), fun _ => none⟩

/-- Witness for C2 as amended: the `deadbeef` / `cafef00d` scenario — a
mismatch is raised, the head is rewritten to the live one, the state
becomes "opened" and no ref update is performed. -/
theorem C2_mismatch_amended_witness :
    c2wpr.head ≠ StageLevel.liveHeadSha c2wenv ∧
    (StageLevel.resultIsMismatch (StageLevel.stage c2wpr c2wenv "T0").result = true ∧
    (StageLevel.stage c2wpr c2wenv "T0").refOps = [] ∧
    ((StageLevel.stage c2wpr c2wenv "T0").pr.map (·.prState)) = some "opened" ∧
    ((StageLevel.stage c2wpr c2wenv "T0").pr.map (·.head)) =
      some (StageLevel.liveHeadSha c2wenv) ∧
    (c2wpr.message ≠ c2wenv.mkMessage →
      ((StageLevel.stage c2wpr c2wenv "T0").pr.map (·.message)) =
        some c2wenv.mkMessage) ∧
    (StageLevel.squashMismatch c2wpr c2wenv.prdictCommits →
      ((StageLevel.stage c2wpr c2wenv "T0").pr.map (·.squash)) = some true) ∧
    (c2wpr.targetName ≠ c2wenv.baseRef →
      ((StageLevel.stage c2wpr c2wenv "T0").pr.map (·.targetName)) =
        (c2wenv.branchByName c2wenv.baseRef).map (·.name)) ∧
    (c2wpr.head ≠ StageLevel.liveHeadSha c2wenv →
      ("Head", c2wpr.head, StageLevel.liveHeadSha c2wenv) ∈
        StageLevel.resultDiff (StageLevel.stage c2wpr c2wenv "T0").result) ∧
    (c2wpr.message ≠ c2wenv.mkMessage →
      ("Message", c2wpr.message, c2wenv.mkMessage) ∈
        StageLevel.resultDiff (StageLevel.stage c2wpr c2wenv "T0").result)) :=
  ⟨by decide,
   C2_mismatch_amended c2wpr c2wenv "T0" (by decide) (by decide) (by decide)
     (by decide) (by decide) (Or.inl (by decide))⟩

end Runbot

namespace Runbot.Msg

/-! ## Round-trip theory for the Commit Message Model (claim C8) -/

/-- Whether a line contains a non-whitespace character. -/
def hasNonWS (l : String) : Bool := l.data.any (fun c => ¬ isPyWS c)

/-- Whether a line starts with a non-whitespace character. -/
def startsNonWS (l : String) : Bool :=
  match l.data with
  | [] => false
  | c :: _ => ¬ isPyWS c

/-- Whether a line ends with a non-whitespace character. -/
def endsNonWS (l : String) : Bool :=
  match l.data.reverse with
  | [] => false
  | c :: _ => ¬ isPyWS c

/-- Structural blank-line discipline: every empty line is immediately
followed by a nonempty one (in particular no empty line is last). -/
def blanksOKs : List String → Bool
  | [] => true
  | l :: t => (l ≠ "" || headNonEmpty t) && blanksOKs t

end Runbot.Msg

namespace Runbot

/-! ## Claim C8 (counterexample) -/

/-- C8 counterexample.  First half (round trip): for the message
`"T\n\nA: b\n "` — a trailing line holding one space — stripping the
assembled body exposes the trailer-shaped line `"A: b"` at the end, so
re-parsing the serialized message moves it out of the body:
`parse(serialize(parse(m))).body = "T"` while `parse(m).body = "T\n\nA: b"`.
Second half: `"T\nx"` contains no trailer-shaped line, yet its parsed body
is `"T\n\nx"` (a blank separator is inserted after the title), not the
message trimmed (`"T\nx"`). -/
theorem C8_counterexample :
    Msg.from_message false "T\n\nA: b\n " = some ⟨"T\n\nA: b", []⟩ ∧
    Msg.serialize ⟨"T\n\nA: b", []⟩ = "T\n\nA: b\n" ∧
    Msg.from_message false "T\n\nA: b\n" = some ⟨"T", [("A", "b")]⟩ ∧
    ("T" : String) ≠ "T\n\nA: b" ∧
    Msg.headerMatch "T" = none ∧ Msg.headerMatch "x" = none ∧
    Msg.from_message false "T\nx" = some ⟨"T\n\nx", []⟩ ∧
    pyStrip "T\nx" = "T\nx" ∧
    ("T\n\nx" : String) ≠ "T\nx" := by
  refine ⟨by decide, by decide, by decide, by decide, by decide, by decide,
    by decide, by decide, by decide⟩

end Runbot

namespace Runbot

/-! ## Character-level lemmas about `pySplitlinesC`, `joinNLC`, `pyStripC` -/

/-- `slAux` with a nonempty accumulator never returns the empty list. -/
theorem slAux_ne_nil_of_cur_ne_nil :
    ∀ (s cur : List Char), cur ≠ [] → slAux cur s ≠ [] := by
  intro s
  induction s with
  | nil =>
    intro cur h
    simp [slAux, h]
  | cons c rest ih =>
    intro cur h
    by_cases hc : c = '\n'
    · simp [slAux, hc]
    · simp only [slAux, if_neg hc]
      exact ih (c :: cur) (by simp)

/-- `slAux [] s` is empty exactly for empty input. -/
theorem slAux_nil_iff : ∀ s : List Char, slAux [] s = [] ↔ s = [] := by
  intro s
  cases s with
  | nil => simp [slAux]
  | cons c rest =>
    constructor
    · intro h
      by_cases hc : c = '\n'
      · simp [slAux, hc] at h
      · simp only [slAux, if_neg hc] at h
        exact absurd h (slAux_ne_nil_of_cur_ne_nil rest [c] (by simp))
    · intro h
      exact absurd h (by simp)

/-- Scanning a newline-free line followed by a newline emits exactly that
line (prefixed by the pending accumulator). -/
theorem slAux_line_newline :
    ∀ (l : List Char), '\n' ∉ l → ∀ (cur rest : List Char),
      slAux cur (l ++ '\n' :: rest) = (cur.reverse ++ l) :: slAux [] rest := by
  intro l
  induction l with
  | nil =>
    intro _ cur rest
    simp [slAux]
  | cons c l' ih =>
    intro hl cur rest
    have hc : c ≠ '\n' := fun h => hl (h ▸ List.mem_cons_self c l')
    have hl' : '\n' ∉ l' := fun h => hl (List.mem_cons_of_mem c h)
    have hstep : slAux cur ((c :: l') ++ '\n' :: rest) =
        slAux (c :: cur) (l' ++ '\n' :: rest) := by
      rw [List.cons_append]
      simp [slAux, hc]
    rw [hstep, ih hl' (c :: cur) rest]
    simp

/-- Scanning a newline-free remainder emits it as one final line. -/
theorem slAux_no_newline :
    ∀ (l : List Char), '\n' ∉ l → ∀ (cur : List Char),
      slAux cur l =
        if cur.reverse ++ l = [] then [] else [cur.reverse ++ l] := by
  intro l
  induction l with
  | nil =>
    intro _ cur
    cases hcur : cur with
    | nil => simp [slAux]
    | cons x xs => simp [slAux]
  | cons c l' ih =>
    intro hl cur
    have hc : c ≠ '\n' := fun h => hl (h ▸ List.mem_cons_self c l')
    have hl' : '\n' ∉ l' := fun h => hl (List.mem_cons_of_mem c h)
    simp only [slAux, if_neg hc]
    rw [ih hl' (c :: cur)]
    simp

/-- Unfolding lemma for `joinNLC` on a cons. -/
theorem joinNLC_cons (a : List Char) (M : List (List Char)) :
    joinNLC (a :: M) = a ++ (if M = [] then [] else '\n' :: joinNLC M) := by
  cases M with
  | nil => simp [joinNLC]
  | cons b t => simp [joinNLC]

/-- `joinNLC` distributes over append with a newline in between. -/
theorem joinNLC_append (P Q : List (List Char)) (hP : P ≠ []) (hQ : Q ≠ []) :
    joinNLC (P ++ Q) = joinNLC P ++ '\n' :: joinNLC Q := by
  induction P with
  | nil => exact absurd rfl hP
  | cons a P' ih =>
    cases hP' : P' with
    | nil =>
      subst hP'
      rw [List.cons_append, List.nil_append, joinNLC_cons a Q, joinNLC_cons a []]
      simp [hQ]
    | cons b t =>
      subst hP'
      rw [List.cons_append, joinNLC_cons,
        if_neg (show ¬(b :: t ++ Q = []) by simp),
        ih (by simp), joinNLC_cons a (b :: t),
        if_neg (show ¬(b :: t = []) by simp)]
      simp

/-- Splitting the newline-join of newline-free lines followed by a final
newline recovers the lines. -/
theorem split_join_newline :
    ∀ (L : List (List Char)), L ≠ [] → (∀ l ∈ L, '\n' ∉ l) →
      pySplitlinesC (joinNLC L ++ ['\n']) = L := by
  intro L
  induction L with
  | nil => intro h; exact absurd rfl h
  | cons a M ih =>
    intro _ hfree
    have ha : '\n' ∉ a := hfree a (by simp)
    cases hM : M with
    | nil =>
      subst hM
      show slAux [] (joinNLC [a] ++ ['\n']) = [a]
      have : joinNLC [a] ++ ['\n'] = a ++ '\n' :: [] := by simp [joinNLC]
      rw [this, slAux_line_newline a ha [] []]
      simp [slAux]
    | cons b t =>
      subst hM
      show slAux [] (joinNLC (a :: b :: t) ++ ['\n']) = a :: b :: t
      have hj : joinNLC (a :: b :: t) ++ ['\n'] =
          a ++ '\n' :: (joinNLC (b :: t) ++ ['\n']) := by
        simp [joinNLC]
      rw [hj, slAux_line_newline a ha [] _]
      rw [show slAux [] (joinNLC (b :: t) ++ ['\n']) =
        pySplitlinesC (joinNLC (b :: t) ++ ['\n']) from rfl]
      rw [ih (by simp) (fun l hl => hfree l (List.mem_cons_of_mem a hl))]
      simp

/-- Splitting the newline-join of newline-free lines whose last line is
nonempty recovers the lines (no trailing newline). -/
theorem split_join_no_newline :
    ∀ (L : List (List Char)), L ≠ [] → (∀ l ∈ L, '\n' ∉ l) →
      (L.reverse.headD []) ≠ [] →
      pySplitlinesC (joinNLC L) = L := by
  intro L
  induction L with
  | nil => intro h; exact absurd rfl h
  | cons a M ih =>
    intro _ hfree hlast
    have ha : '\n' ∉ a := hfree a (by simp)
    cases hM : M with
    | nil =>
      subst hM
      show slAux [] (joinNLC [a]) = [a]
      have hane : a ≠ [] := by
        simpa using hlast
      rw [show joinNLC [a] = a from rfl, slAux_no_newline a ha []]
      simp [hane]
    | cons b t =>
      subst hM
      show slAux [] (joinNLC (a :: b :: t)) = a :: b :: t
      have hj : joinNLC (a :: b :: t) = a ++ '\n' :: joinNLC (b :: t) := by
        simp [joinNLC]
      rw [hj, slAux_line_newline a ha [] _]
      rw [show slAux [] (joinNLC (b :: t)) =
        pySplitlinesC (joinNLC (b :: t)) from rfl]
      rw [ih (by simp) (fun l hl => hfree l (List.mem_cons_of_mem a hl))
        (by simpa using hlast)]
      simp

end Runbot

namespace Runbot

/-- Helper for `joinNLC_splitlinesC`: rejoining the scan of `s` restores
`cur.reverse ++ s`, up to one trailing newline. -/
theorem joinNLC_slAux :
    ∀ (s cur : List Char),
      joinNLC (slAux cur s) = cur.reverse ++ s ∨
      cur.reverse ++ s = joinNLC (slAux cur s) ++ ['\n'] := by
  intro s
  induction s with
  | nil =>
    intro cur
    by_cases hcur : cur = []
    · subst hcur
      left
      simp [slAux, joinNLC]
    · left
      simp [slAux, hcur, joinNLC]
  | cons c rest ih =>
    intro cur
    by_cases hc : c = '\n'
    · subst hc
      have hstep : slAux cur ('\n' :: rest) = cur.reverse :: slAux [] rest := by
        simp [slAux]
      rw [hstep]
      by_cases hrest : rest = []
      · subst hrest
        right
        simp [slAux, joinNLC]
      · have hM : slAux [] rest ≠ [] := fun h => hrest ((slAux_nil_iff rest).mp h)
        rw [joinNLC_cons, if_neg hM]
        rcases ih [] with h | h
        · left
          simp only [List.reverse_nil, List.nil_append] at h
          rw [h]
        · right
          simp only [List.reverse_nil, List.nil_append] at h
          nth_rewrite 1 [h]
          simp
    · have hstep : slAux cur (c :: rest) = slAux (c :: cur) rest := by
        simp [slAux, hc]
      rw [hstep]
      have hrw : (c :: cur).reverse ++ rest = cur.reverse ++ c :: rest := by
        simp
      rcases ih (c :: cur) with h | h
      · left
        rw [h, hrw]
      · right
        rw [← hrw, h]

/-- Rejoining the split of `s` restores `s` up to one trailing newline. -/
theorem joinNLC_splitlinesC (s : List Char) :
    joinNLC (pySplitlinesC s) = s ∨
    s = joinNLC (pySplitlinesC s) ++ ['\n'] := by
  have := joinNLC_slAux s []
  simpa [pySplitlinesC] using this

/-- Stripping ignores one trailing newline. -/
theorem pyStripC_append_newline (x : List Char) :
    pyStripC (x ++ ['\n']) = pyStripC x := by
  by_cases hx : (x.dropWhile isPyWS).isEmpty
  · have hxe : x.dropWhile isPyWS = [] := by
      simpa [List.isEmpty_iff] using hx
    simp [pyStripC, List.dropWhile_append, hx, hxe, isPyWS]
  · have hxe : (x ++ ['\n']).dropWhile isPyWS = x.dropWhile isPyWS ++ ['\n'] := by
      rw [List.dropWhile_append, if_neg (by simpa using hx)]
    rw [pyStripC, hxe, List.reverse_append]
    have : (['\n'].reverse : List Char) ++ (x.dropWhile isPyWS).reverse =
        '\n' :: (x.dropWhile isPyWS).reverse := by simp
    rw [this, List.dropWhile_cons, if_pos (by decide)]
    rfl

/-- Reversing a newline-join reverses the lines and each line. -/
theorem joinNLC_reverse :
    ∀ L : List (List Char),
      (joinNLC L).reverse = joinNLC ((L.map List.reverse).reverse) := by
  intro L
  induction L with
  | nil => simp [joinNLC]
  | cons a M ih =>
    cases hM : M with
    | nil => simp [joinNLC]
    | cons b t =>
      subst hM
      have h1 : joinNLC (a :: b :: t) = a ++ '\n' :: joinNLC (b :: t) := by
        simp [joinNLC]
      have hMne : ((b :: t).map List.reverse).reverse ≠ [] := by simp
      rw [h1, List.reverse_append, List.reverse_cons]
      rw [show ((a :: b :: t).map List.reverse).reverse =
        ((b :: t).map List.reverse).reverse ++ [a.reverse] from by simp]
      rw [joinNLC_append _ _ hMne (by simp), ← ih]
      simp [joinNLC]

/-- When the joined lines start and end with a non-whitespace character,
stripping is the identity. -/
theorem pyStripC_joinNLC_of_ends (ls : List (List Char)) (hne : ls ≠ [])
    (hfront : ∃ c t, ls.headD [] = c :: t ∧ isPyWS c = false)
    (hback : ∃ c t, (ls.reverse.headD []).reverse = c :: t ∧ isPyWS c = false) :
    pyStripC (joinNLC ls) = joinNLC ls := by
  obtain ⟨c, t, hhead, hc⟩ := hfront
  obtain ⟨c', t', hlast, hc'⟩ := hback
  have hjoin : ∃ X, joinNLC ls = c :: X := by
    cases ls with
    | nil => exact absurd rfl hne
    | cons a M =>
      refine ⟨t ++ (if M = [] then [] else '\n' :: joinNLC M), ?_⟩
      rw [joinNLC_cons]
      have : a = c :: t := by simpa using hhead
      rw [this]
      simp
  obtain ⟨X, hX⟩ := hjoin
  have hfrontdrop : (joinNLC ls).dropWhile isPyWS = joinNLC ls := by
    rw [hX, List.dropWhile_cons, if_neg (by simp [hc])]
  have hrev : ∃ Y, (joinNLC ls).reverse = c' :: Y := by
    rw [joinNLC_reverse]
    cases hrev : ls.reverse with
    | nil => exact absurd (by simpa using congrArg List.reverse hrev) hne
    | cons b T =>
      have hmap : (ls.map List.reverse).reverse = ls.reverse.map List.reverse := by
        rw [List.reverse_map]
      rw [hmap, hrev]
      have hb : b.reverse = c' :: t' := by
        rw [hrev] at hlast
        simpa using hlast
      refine ⟨t' ++ (if T.map List.reverse = [] then []
        else '\n' :: joinNLC (T.map List.reverse)), ?_⟩
      rw [List.map_cons, joinNLC_cons, hb]
      simp
  obtain ⟨Y, hY⟩ := hrev
  have hbackdrop : (joinNLC ls).reverse.dropWhile isPyWS = (joinNLC ls).reverse := by
    rw [hY, List.dropWhile_cons, if_neg (by simp [hc'])]
  rw [pyStripC, hfrontdrop, hbackdrop, List.reverse_reverse]

end Runbot

namespace Runbot

/-- Lines produced by the scan are newline-free. -/
theorem slAux_lfFree :
    ∀ (s cur : List Char), '\n' ∉ cur → ∀ l ∈ slAux cur s, '\n' ∉ l := by
  intro s
  induction s with
  | nil =>
    intro cur hcur l hl
    cases cur with
    | nil => simp [slAux] at hl
    | cons x xs =>
      rw [show slAux (x :: xs) [] = [(x :: xs).reverse] from by simp [slAux]] at hl
      rw [List.mem_singleton] at hl
      subst hl
      rw [List.mem_reverse]
      exact hcur
  | cons c rest ih =>
    intro cur hcur l hl
    by_cases hc : c = '\n'
    · subst hc
      rw [show slAux cur ('\n' :: rest) = cur.reverse :: slAux [] rest from by
        simp [slAux]] at hl
      rcases List.mem_cons.mp hl with hl | hl
      · subst hl
        simpa using hcur
      · exact ih [] (by simp) l hl
    · rw [show slAux cur (c :: rest) = slAux (c :: cur) rest from by
        simp [slAux, hc]] at hl
      have hcc : '\n' ∉ c :: cur := by
        intro hmem
        rcases List.mem_cons.mp hmem with h | h
        · exact hc h.symm
        · exact hcur h
      exact ih (c :: cur) hcc l hl

/-- String-level: every line of `pySplitlines` is newline-free. -/
theorem pySplitlines_lfFree (m : String) :
    ∀ l ∈ pySplitlines m, '\n' ∉ l.data := by
  intro l hl
  obtain ⟨lc, hlc, rfl⟩ := List.mem_map.mp hl
  simpa using slAux_lfFree m.data [] (by simp) lc hlc

/-- Rebuilding a string from its `String.mk`/`String.data` round trip. -/
theorem map_mk_data (ls : List String) : (ls.map String.data).map String.mk = ls := by
  rw [List.map_map]
  have h : (String.mk ∘ String.data) = id := by
    funext s
    rfl
  rw [h, List.map_id]

end Runbot

namespace Runbot.Msg

open Runbot

/-- String-level recovery of lines from their join plus a final newline. -/
theorem pySplitlines_join_newline (ls : List String) (hne : ls ≠ [])
    (hfree : ∀ l ∈ ls, '\n' ∉ l.data) :
    pySplitlines (joinNL ls ++ "\n") = ls := by
  have hfree' : ∀ l ∈ ls.map String.data, '\n' ∉ l := by
    intro l hl
    obtain ⟨x, hx, rfl⟩ := List.mem_map.mp hl
    exact hfree x hx
  unfold pySplitlines joinNL
  rw [String.data_append]
  rw [show (String.mk (joinNLC (ls.map String.data))).data =
    joinNLC (ls.map String.data) from rfl]
  rw [show ("\n" : String).data = ['\n'] from rfl]
  rw [split_join_newline (ls.map String.data) (by simpa using hne) hfree']
  exact map_mk_data ls

/-- Stripping the rejoined lines of a string equals stripping the string. -/
theorem pyStrip_join_splitlines (m : String) :
    pyStrip (joinNL (pySplitlines m)) = pyStrip m := by
  unfold pyStrip joinNL pySplitlines
  have hdd : ((pySplitlinesC m.data).map String.mk).map String.data =
      pySplitlinesC m.data := by
    rw [List.map_map]
    have h : (String.data ∘ String.mk) = id := by
      funext l
      rfl
    rw [h, List.map_id]
  rw [show (String.mk (joinNLC (((pySplitlinesC m.data).map String.mk).map
    String.data))).data = joinNLC (((pySplitlinesC m.data).map String.mk).map
    String.data) from rfl, hdd]
  rcases joinNLC_splitlinesC m.data with h | h
  · rw [h]
  · nth_rewrite 2 [h]
    rw [pyStripC_append_newline]

/-- `headerMatch` accepts every well-formed trailer line. -/
theorem headerMatch_complete (k v : String) (hk : k.data ≠ [])
    (hkc : ∀ c ∈ k.data, isKeyChar c = true) :
    headerMatch (k ++ ": " ++ v) = some (k, v) := by
  have hdata : (k ++ ": " ++ v).data = k.data ++ ':' :: ' ' :: v.data := by
    rw [String.data_append, String.data_append]
    rw [show (": " : String).data = [':', ' '] from rfl]
    simp
  have htake : (k.data ++ ':' :: ' ' :: v.data).takeWhile isKeyChar = k.data := by
    rw [List.takeWhile_append_of_pos hkc, List.takeWhile_cons,
      if_neg (by decide)]
    simp
  unfold headerMatch
  dsimp only
  rw [hdata, htake, List.drop_left]
  rw [if_pos ⟨hk, rfl⟩]
  rfl

/-- `headerMatch` only accepts well-formed trailer lines. -/
theorem headerMatch_sound (l k v : String)
    (h : headerMatch l = some (k, v)) :
    l.data = k.data ++ ':' :: ' ' :: v.data ∧ k.data ≠ [] ∧
      (∀ c ∈ k.data, isKeyChar c = true) := by
  unfold headerMatch at h
  dsimp only at h
  by_cases hcond : (l.data.takeWhile isKeyChar ≠ [] ∧
      (l.data.drop (l.data.takeWhile isKeyChar).length).take 2 = [':', ' '])
  · rw [if_pos hcond] at h
    injection h with h2
    have hkeq : k = String.mk (l.data.takeWhile isKeyChar) := by
      have := congrArg Prod.fst h2
      simpa using this.symm
    have hveq : v = String.mk
        ((l.data.drop (l.data.takeWhile isKeyChar).length).drop 2) := by
      have := congrArg Prod.snd h2
      simpa using this.symm
    have hkd : k.data = l.data.takeWhile isKeyChar := by rw [hkeq]
    obtain ⟨t, ht⟩ := (List.takeWhile_prefix (l := l.data) (p := isKeyChar))
    set A := l.data.takeWhile isKeyChar with hA
    have hdrop : l.data.drop A.length = t := by
      conv =>
        left
        rw [← ht]
      rw [List.drop_left]
    rw [hdrop] at hcond hveq
    refine ⟨?_, ?_, ?_⟩
    · have ht2 : t = [':', ' '] ++ t.drop 2 := by
        conv =>
          left
          rw [← List.take_append_drop 2 t]
        rw [hcond.2]
      rw [hkd, ← ht, ht2, hveq]
      rfl
    · rw [hkd]
      exact hcond.1
    · intro c hc
      rw [hkd] at hc
      exact List.mem_takeWhile_imp hc
  · rw [if_neg hcond] at h
    exact absurd h (by simp)

/-- Characters built by `Char.ofNat` from small code points. -/
theorem char_toNat_ofNat_small (n : Nat) (h : n < 128) :
    (Char.ofNat n).toNat = n := by
  unfold Char.ofNat
  rw [dif_pos (Or.inl (by omega) : n.isValidChar)]
  rfl

/-- Key characters stay key characters under `Char.toLower`. -/
theorem isKeyChar_toLower (c : Char) (h : isKeyChar c = true) :
    isKeyChar (Char.toLower c) = true := by
  unfold Char.toLower
  dsimp only
  by_cases hc : c.toNat ≥ 65 ∧ c.toNat ≤ 90
  · rw [if_pos hc]
    have hval := char_toNat_ofNat_small (c.toNat + 32) (by omega)
    simp only [isKeyChar, hval, Bool.or_eq_true, Bool.and_eq_true,
      decide_eq_true_eq]
    left
    right
    omega
  · rw [if_neg hc]
    exact h

/-- Key characters stay key characters under `Char.toUpper`. -/
theorem isKeyChar_toUpper (c : Char) (h : isKeyChar c = true) :
    isKeyChar (Char.toUpper c) = true := by
  unfold Char.toUpper
  dsimp only
  by_cases hc : c.toNat ≥ 97 ∧ c.toNat ≤ 122
  · rw [if_pos hc]
    have hval := char_toNat_ofNat_small (c.toNat - 32) (by omega)
    simp only [isKeyChar, hval, Bool.or_eq_true, Bool.and_eq_true,
      decide_eq_true_eq]
    left
    left
    omega
  · rw [if_neg hc]
    exact h

/-- Python capitalization keeps a trailer key well-formed. -/
theorem pyCapitalize_keyChars (k : String) (hk : k.data ≠ [])
    (hkc : ∀ c ∈ k.data, isKeyChar c = true) :
    (pyCapitalize k).data ≠ [] ∧
      (∀ c ∈ (pyCapitalize k).data, isKeyChar c = true) := by
  unfold pyCapitalize
  cases hd : k.data with
  | nil => exact absurd hd hk
  | cons c cs =>
    refine ⟨by simp, ?_⟩
    intro x hx
    simp only [List.mem_cons] at hx
    rcases hx with hx | hx
    · subst hx
      exact isKeyChar_toUpper c (hkc c (by rw [hd]; exact List.mem_cons_self c cs))
    · obtain ⟨y, hy, rfl⟩ := List.mem_map.mp hx
      exact isKeyChar_toLower y (hkc y (by rw [hd]; exact List.mem_cons_of_mem c hy))

end Runbot.Msg

namespace Runbot.Msg

open Runbot

/-! ## Parse-state invariant and replay lemmas for the scan of
`Message.from_message` with `handle_break = False` (claim C8) -/

/-- A line that is not trailer-shaped is not a co-authorship trailer. -/
theorem isCab_of_none (l : String) (h : headerMatch l = none) :
    isCab l = false := by
  unfold isCab
  rw [h]

/-- Character content of a rendered trailer line. -/
theorem data_append_sep (k v : String) :
    (k ++ ": " ++ v).data = k.data ++ ':' :: ' ' :: v.data := by
  rw [String.data_append, String.data_append]
  rw [show (": " : String).data = [':', ' '] from rfl]
  simp

/-- Well-formedness of a final `bodyRev` stack: consecutive blanks never
occur, the bottom line is nonempty, not trailer-shaped, and ends in
non-whitespace, and no line is a co-authorship trailer. -/
def goodRev : List String → Bool
  | [] => true
  | [l] => decide (l ≠ "") && (headerMatch l).isNone && endsNonWS l
  | l :: t => (if l = "" then headNonEmpty t else !(isCab l)) && goodRev t

/-- Well-formedness of an accumulated trailer list: every key is a nonempty
run of key characters and every value is newline-free. -/
def HOK (hs : List (String × String)) : Prop :=
  ∀ p ∈ hs, p.1.data ≠ [] ∧ (∀ c ∈ p.1.data, isKeyChar c = true) ∧
    '\n' ∉ p.2.data

/-- Invariant maintained by the bottom-up scan (with break handling off):
no pending setext candidate, the header phase is active exactly while the
body is empty, the body stack is well-formed and newline-free, and the
trailers are well-formed. -/
def PInv (st : PSt) : Prop :=
  st.maybeSetex = none ∧ (st.inHeaders = true ↔ st.bodyRev = []) ∧
    goodRev st.bodyRev = true ∧ (∀ l ∈ st.bodyRev, '\n' ∉ l.data) ∧
    HOK st.headersRev

/-- Evaluation of one scan step when break handling is off and no setext
candidate is pending. -/
theorem pstep_false_eval (st : PSt) (h : st.maybeSetex = none) (l : String) :
    pstep false st l =
      if l = "" then
        (if ¬st.inHeaders ∧ headNonEmpty st.bodyRev
         then { st with bodyRev := "" :: st.bodyRev } else st)
      else
        match headerMatch l with
        | some (k, v) =>
          if st.inHeaders ∨ pyLower k = "co-authored-by"
          then { st with headersRev := (k, v) :: st.headersRev }
          else { st with bodyRev := l :: st.bodyRev, inHeaders := false }
        | none => { st with bodyRev := l :: st.bodyRev, inHeaders := false } := by
  unfold pstep
  rw [h]
  dsimp only
  by_cases hl : l = ""
  · rw [if_pos hl, if_pos hl]
    split
    · rw [h]
    · rfl
  · rw [if_neg hl, if_neg hl]
    rw [if_neg (by simp)]
    rw [h]

end Runbot.Msg

namespace Runbot.Msg

open Runbot

/-- The scan invariant is preserved by one step on a line that is blank or
ends in non-whitespace and is newline-free. -/
theorem pstep_false_PInv (st : PSt) (l : String) (hst : PInv st)
    (hl : l = "" ∨ endsNonWS l = true) (hlf : '\n' ∉ l.data) :
    PInv (pstep false st l) := by
  obtain ⟨hms, hiff, hgood, hblf, hhok⟩ := hst
  rw [pstep_false_eval st hms l]
  by_cases hle : l = ""
  · rw [if_pos hle]
    by_cases hcond : ¬st.inHeaders ∧ headNonEmpty st.bodyRev
    · rw [if_pos hcond]
      obtain ⟨hih, hhne⟩ := hcond
      cases hbr : st.bodyRev with
      | nil =>
        rw [hbr] at hhne
        exact absurd hhne (by simp [headNonEmpty])
      | cons b t =>
        rw [hbr] at hgood hblf hhne
        refine ⟨hms, ?_, ?_, ?_, hhok⟩
        · dsimp only
          constructor
          · intro h2
            exact absurd h2 (by simpa using hih)
          · intro h2
            exact absurd h2 (by simp)
        · dsimp only
          simp only [goodRev, if_pos rfl, Bool.and_eq_true]
          exact ⟨hhne, hgood⟩
        · dsimp only
          intro x hx
          rcases List.mem_cons.mp hx with hx | hx
          · subst hx
            simp
          · exact hblf x hx
    · rw [if_neg hcond]
      exact ⟨hms, hiff, hgood, hblf, hhok⟩
  · rw [if_neg hle]
    cases hm : headerMatch l with
    | some kv =>
      obtain ⟨k, v⟩ := kv
      obtain ⟨hsnd, hkne, hkc⟩ := headerMatch_sound l k v hm
      dsimp only
      by_cases hc : st.inHeaders ∨ pyLower k = "co-authored-by"
      · rw [if_pos hc]
        refine ⟨hms, hiff, hgood, hblf, ?_⟩
        dsimp only [HOK]
        intro p hp
        rcases List.mem_cons.mp hp with hp | hp
        · subst hp
          refine ⟨hkne, hkc, ?_⟩
          intro hmem
          apply hlf
          rw [hsnd]
          exact List.mem_append.mpr (Or.inr (by simp [hmem]))
        · exact hhok p hp
      · rw [if_neg hc]
        push_neg at hc
        obtain ⟨hih, hcab⟩ := hc
        have hbne : st.bodyRev ≠ [] := by
          intro h2
          exact hih (hiff.mpr h2)
        cases hbr : st.bodyRev with
        | nil => exact absurd hbr hbne
        | cons b t =>
          rw [hbr] at hgood hblf
          refine ⟨hms, by simp, ?_, ?_, hhok⟩
          · dsimp only
            simp only [goodRev, if_neg hle, Bool.and_eq_true]
            refine ⟨?_, hgood⟩
            have : isCab l = false := by
              unfold isCab
              rw [hm]
              exact decide_eq_false hcab
            rw [this]
            rfl
          · dsimp only
            intro x hx
            rcases List.mem_cons.mp hx with hx | hx
            · subst hx
              exact hlf
            · exact hblf x hx
    | none =>
      have hend : endsNonWS l = true := by
        rcases hl with hl | hl
        · exact absurd hl hle
        · exact hl
      cases hbr : st.bodyRev with
      | nil =>
        refine ⟨hms, by simp, ?_, ?_, hhok⟩
        · dsimp only
          simp only [goodRev, Bool.and_eq_true]
          refine ⟨⟨by simpa using hle, ?_⟩, hend⟩
          rw [hm]
          rfl
        · dsimp only
          intro x hx
          rcases List.mem_cons.mp hx with hx | hx
          · subst hx
            exact hlf
          · simp at hx
      | cons b t =>
        rw [hbr] at hgood hblf
        refine ⟨hms, by simp, ?_, ?_, hhok⟩
        · dsimp only
          simp only [goodRev, if_neg hle, Bool.and_eq_true]
          refine ⟨?_, hgood⟩
          rw [isCab_of_none l hm]
          rfl
        · dsimp only
          intro x hx
          rcases List.mem_cons.mp hx with hx | hx
          · subst hx
            exact hlf
          · exact hblf x hx

/-- The scan invariant holds after folding over any list of blank or
non-whitespace-terminated, newline-free lines. -/
theorem foldl_pstep_PInv :
    ∀ (ls : List String) (st : PSt), PInv st →
      (∀ l ∈ ls, (l = "" ∨ endsNonWS l = true) ∧ '\n' ∉ l.data) →
      PInv (ls.foldl (pstep false) st) := by
  intro ls
  induction ls with
  | nil =>
    intro st hst _
    exact hst
  | cons l t ih =>
    intro st hst hls
    rw [List.foldl_cons]
    exact ih (pstep false st l)
      (pstep_false_PInv st l hst (hls l (by simp)).1 (hls l (by simp)).2)
      (fun x hx => hls x (List.mem_cons_of_mem l hx))

/-- The initial scan state satisfies the invariant. -/
theorem pinit_PInv : PInv pinit := by
  refine ⟨rfl, by simp [pinit], rfl, ?_, ?_⟩
  · intro l hl
    simp [pinit] at hl
  · intro p hp
    simp [pinit] at hp

end Runbot.Msg

namespace Runbot.Msg

open Runbot

/-- Replaying a well-formed body stack bottom-up from a fresh body
reproduces it exactly, leaving the trailers untouched. -/
theorem replay_scan :
    ∀ (rv : List String), goodRev rv = true → rv ≠ [] →
      ∀ H : List (String × String),
        List.foldl (pstep false) ⟨true, none, H, []⟩ rv.reverse =
          ⟨false, none, H, rv⟩ := by
  intro rv
  induction rv with
  | nil =>
    intro _ h
    exact absurd rfl h
  | cons l t ih =>
    intro hg _ H
    cases t with
    | nil =>
      simp only [goodRev, Bool.and_eq_true, decide_eq_true_eq,
        Option.isNone_iff_eq_none] at hg
      obtain ⟨⟨hne, hm⟩, hend⟩ := hg
      rw [show ([l] : List String).reverse = [l] from rfl]
      rw [List.foldl_cons, List.foldl_nil]
      rw [pstep_false_eval _ rfl l, if_neg hne, hm]
    | cons b t' =>
      simp only [goodRev, Bool.and_eq_true] at hg
      obtain ⟨hcond, hg2⟩ := hg
      rw [List.reverse_cons, List.foldl_append]
      rw [ih hg2 (by simp) H]
      rw [List.foldl_cons, List.foldl_nil]
      rw [pstep_false_eval _ rfl l]
      by_cases hle : l = ""
      · subst hle
        rw [if_pos rfl] at hcond
        rw [if_pos rfl]
        dsimp only
        rw [if_pos ⟨by simp, hcond⟩]
      · rw [if_neg hle] at hcond
        rw [if_neg hle]
        have hcab : isCab l = false := by
          simpa using hcond
        cases hm : headerMatch l with
        | some kv =>
          obtain ⟨k, v⟩ := kv
          unfold isCab at hcab
          rw [hm] at hcab
          dsimp only at hcab ⊢
          rw [if_neg ?hcond2]
          case hcond2 =>
            intro h2
            rcases h2 with h2 | h2
            · simp at h2
            · rw [h2] at hcab
              simp at hcab
        | none =>
          dsimp only

/-- Scanning lines that are blank or trailer-shaped keeps the header phase
active and the body empty. -/
theorem headers_scan :
    ∀ (ls : List String),
      (∀ l ∈ ls, l = "" ∨ ∃ k v, headerMatch l = some (k, v)) →
      ∀ H : List (String × String), ∃ H2,
        List.foldl (pstep false) ⟨true, none, H, []⟩ ls = ⟨true, none, H2, []⟩ := by
  intro ls
  induction ls with
  | nil =>
    intro _ H
    exact ⟨H, rfl⟩
  | cons l t ih =>
    intro hls H
    rw [List.foldl_cons]
    rcases hls l (by simp) with hle | ⟨k, v, hm⟩
    · subst hle
      rw [show pstep false ⟨true, none, H, []⟩ "" = ⟨true, none, H, []⟩ from by
        rw [pstep_false_eval _ rfl, if_pos rfl, if_neg (by simp)]]
      exact ih (fun x hx => hls x (List.mem_cons_of_mem _ hx)) H
    · have hlne : l ≠ "" := by
        intro h2
        rw [h2] at hm
        have : headerMatch "" = none := by decide
        rw [this] at hm
        exact Option.noConfusion hm
      rw [show pstep false ⟨true, none, H, []⟩ l = ⟨true, none, (k, v) :: H, []⟩ from by
        rw [pstep_false_eval _ rfl, if_neg hlne, hm]
        dsimp only
        rw [if_pos (Or.inl rfl)]]
      exact ih (fun x hx => hls x (List.mem_cons_of_mem _ hx)) ((k, v) :: H)

/-- A well-formed body stack ends (bottom line) in non-whitespace. -/
theorem goodRev_last :
    ∀ (rv : List String), goodRev rv = true → rv ≠ [] →
      endsNonWS (rv.reverse.headD "") = true := by
  intro rv
  induction rv with
  | nil =>
    intro _ h
    exact absurd rfl h
  | cons l t ih =>
    intro hg _
    cases t with
    | nil =>
      simp only [goodRev, Bool.and_eq_true] at hg
      simpa using hg.2
    | cons b t' =>
      simp only [goodRev, Bool.and_eq_true] at hg
      have hlast := ih hg.2 (by simp)
      rw [List.reverse_cons]
      cases hrev : (b :: t').reverse with
      | nil => exact absurd hrev (by simp)
      | cons y T =>
        rw [hrev] at hlast
        simpa using hlast

/-- Blank-disciplined, non-trailer-shaped lines ending in non-whitespace
form a well-formed body stack. -/
theorem goodRev_of_plain :
    ∀ (ls : List String),
      (∀ l ∈ ls, headerMatch l = none) →
      (∀ l ∈ ls, l = "" ∨ endsNonWS l = true) →
      blanksOKs ls = true → goodRev ls = true := by
  intro ls
  induction ls with
  | nil =>
    intro _ _ _
    rfl
  | cons l t ih =>
    intro hhm hend hbl
    simp only [blanksOKs, Bool.and_eq_true] at hbl
    cases t with
    | nil =>
      have hlne : l ≠ "" := by
        simpa [headNonEmpty] using hbl.1
      simp only [goodRev, Bool.and_eq_true]
      refine ⟨⟨by simpa using hlne, ?_⟩, ?_⟩
      · rw [hhm l (by simp)]
        rfl
      · rcases hend l (by simp) with h | h
        · exact absurd h hlne
        · exact h
    | cons b t' =>
      simp only [goodRev, Bool.and_eq_true]
      refine ⟨?_, ih (fun x hx => hhm x (List.mem_cons_of_mem _ hx))
        (fun x hx => hend x (List.mem_cons_of_mem _ hx)) hbl.2⟩
      by_cases hle : l = ""
      · rw [if_pos hle]
        rw [hle] at hbl
        simpa using hbl.1
      · rw [if_neg hle]
        rw [isCab_of_none l (hhm l (by simp))]
        rfl

/-- Scanning the body part prefixed (below) by a blank separator and a
trailer block: the trailers are consumed, the separator is skipped, and the
body part is replayed verbatim. -/
theorem reparse_scan (D S : List String)
    (hD : D = [] ∨ ∃ X, D = "" :: X ∧ headNonEmpty X = true ∧ goodRev X = true)
    (hS : ∀ l ∈ S, l = "" ∨ ∃ k v, headerMatch l = some (k, v)) :
    ∃ (i : Bool) (H2 : List (String × String)),
      List.foldl (pstep false) pinit (D ++ S).reverse = ⟨i, none, H2, D⟩ := by
  rw [List.reverse_append, List.foldl_append]
  obtain ⟨H2, hH2⟩ := headers_scan S.reverse
    (fun l hl => hS l (List.mem_reverse.mp hl)) []
  rw [show pinit = (⟨true, none, [], []⟩ : PSt) from rfl, hH2]
  rcases hD with rfl | ⟨X, rfl, hXhne, hXg⟩
  · exact ⟨true, H2, rfl⟩
  · have hXne : X ≠ [] := by
      cases X with
      | nil => simp [headNonEmpty] at hXhne
      | cons a b => simp
    rw [List.reverse_cons, List.foldl_append]
    rw [replay_scan X hXg hXne H2]
    refine ⟨false, H2, ?_⟩
    rw [List.foldl_cons, List.foldl_nil]
    rw [pstep_false_eval _ rfl, if_pos rfl]
    dsimp only
    rw [if_pos ⟨by simp, hXhne⟩]

end Runbot.Msg

namespace Runbot.Msg

open Runbot

/-- Insertion-order deduplication only keeps existing elements. -/
theorem mem_orderedDedup (x : String) :
    ∀ (ys : List String), x ∈ orderedDedup ys → x ∈ ys := by
  intro ys
  induction ys with
  | nil =>
    intro h
    simpa [orderedDedup] using h
  | cons k ks ih =>
    intro h
    rw [show orderedDedup (k :: ks) = k :: (orderedDedup ks).filter (· ≠ k)
      from rfl] at h
    rcases List.mem_cons.mp h with h | h
    · subst h
      exact List.mem_cons_self _ _
    · exact List.mem_cons_of_mem _ (ih (List.mem_of_mem_filter h))

/-- Every rendered trailer line of a well-formed trailer list is
trailer-shaped and newline-free. -/
theorem renderLines_wf (hs : List (String × String)) (hok : HOK hs) :
    ∀ l ∈ renderLines hs,
      (∃ k v, headerMatch l = some (k, v)) ∧ '\n' ∉ l.data := by
  intro l hl
  unfold renderLines at hl
  dsimp only at hl
  rw [List.mem_flatMap] at hl
  obtain ⟨k, hk, hlv⟩ := hl
  rw [List.mem_map] at hlv
  obtain ⟨v, hv, rfl⟩ := hlv
  unfold getlist at hv
  rw [List.mem_map] at hv
  obtain ⟨p, hp, rfl⟩ := hv
  have hpmem : p ∈ hs := (List.mem_filter.mp hp).1
  obtain ⟨_, _, hvlf⟩ := hok p hpmem
  have hkcaps : k ∈ orderedDedup (hs.map (fun q => pyCapitalize q.1)) := by
    rcases List.mem_append.mp hk with h | h
    · exact (List.mem_filter.mp h).1
    · exact (List.mem_filter.mp h).1
  have hkmem := mem_orderedDedup _ _ hkcaps
  rw [List.mem_map] at hkmem
  obtain ⟨q, hq, hkq⟩ := hkmem
  obtain ⟨hqne, hqkc, _⟩ := hok q hq
  obtain ⟨hkne, hkc⟩ := pyCapitalize_keyChars q.1 hqne hqkc
  subst hkq
  constructor
  · exact ⟨pyCapitalize q.1, p.2,
      headerMatch_complete (pyCapitalize q.1) p.2 hkne hkc⟩
  · rw [data_append_sep]
    intro hmem
    rcases List.mem_append.mp hmem with h | h
    · exact absurd (hkc '\n' h) (by decide)
    · simp only [List.mem_cons] at h
      rcases h with h | h | h
      · exact absurd h (by decide)
      · exact absurd h (by decide)
      · exact hvlf h

/-- String-level: joining distributes over append with a newline. -/
theorem joinNL_append (P Q : List String) (hP : P ≠ []) (hQ : Q ≠ []) :
    joinNL (P ++ Q) = joinNL P ++ "\n" ++ joinNL Q := by
  apply String.ext
  show joinNLC ((P ++ Q).map String.data) = ((joinNL P ++ "\n") ++ joinNL Q).data
  rw [String.data_append, String.data_append]
  show joinNLC ((P ++ Q).map String.data) =
    joinNLC (P.map String.data) ++ ("\n" : String).data ++
      joinNLC (Q.map String.data)
  rw [List.map_append]
  rw [joinNLC_append _ _ (by simpa using hP) (by simpa using hQ)]
  rw [show ("\n" : String).data = ['\n'] from rfl]
  simp

/-- String-level: when the first line starts and the last line ends in a
non-whitespace character, stripping the join is the identity. -/
theorem pyStrip_joinNL_of_ends (ls : List String) (hne : ls ≠ [])
    (hfirst : startsNonWS (ls.headD "") = true)
    (hlast : endsNonWS (ls.reverse.headD "") = true) :
    pyStrip (joinNL ls) = joinNL ls := by
  apply String.ext
  show pyStripC (joinNLC (ls.map String.data)) = joinNLC (ls.map String.data)
  apply pyStripC_joinNLC_of_ends
  · simpa using hne
  · cases hd : ls with
    | nil => exact absurd hd hne
    | cons a t =>
      rw [hd] at hfirst
      simp only [List.headD_cons] at hfirst
      unfold startsNonWS at hfirst
      cases hda : a.data with
      | nil =>
        rw [hda] at hfirst
        simp at hfirst
      | cons c cs =>
        rw [hda] at hfirst
        refine ⟨c, cs, by simp [hda], ?_⟩
        simpa using hfirst
  · cases hrev : ls.reverse with
    | nil => exact absurd (by simpa using congrArg List.reverse hrev) hne
    | cons a t =>
      rw [hrev] at hlast
      simp only [List.headD_cons] at hlast
      unfold endsNonWS at hlast
      cases hda : a.data.reverse with
      | nil =>
        rw [hda] at hlast
        simp at hlast
      | cons c cs =>
        rw [hda] at hlast
        refine ⟨c, cs, ?_, by simpa using hlast⟩
        rw [show (ls.map String.data).reverse = ls.reverse.map String.data
          from by rw [List.reverse_map]]
        rw [hrev]
        simpa using hda

/-- `pySplitlines` returns no lines exactly on the empty string. -/
theorem pySplitlines_eq_nil (m : String) : pySplitlines m = [] ↔ m = "" := by
  unfold pySplitlines pySplitlinesC
  rw [List.map_eq_nil_iff, slAux_nil_iff]
  constructor
  · intro h
    apply String.ext
    simpa using h
  · intro h
    rw [h]

end Runbot.Msg

namespace Runbot.Msg

/-- Head of the reversal of a cons, when the tail is nonempty. -/
theorem headD_reverse_cons (a : String) (L : List String) (h : L ≠ []) :
    (a :: L).reverse.headD "" = L.reverse.headD "" := by
  cases hrev : L.reverse with
  | nil => exact absurd (by simpa using congrArg List.reverse hrev) h
  | cons y T => simp [List.reverse_cons, hrev]

end Runbot.Msg

namespace Runbot

/-! ## Claim C8 (amended round-trip theorem) -/

set_option maxHeartbeats 1600000 in
/-- **C8** (corrected).  First half (round trip, amended): for a message
`ma` whose lines are each empty or end in non-whitespace and whose first
line starts with non-whitespace, re-parsing the serialized parse of `ma`
yields the same body as the parse of `ma`.  Second half (no trailers,
amended): a nonempty message `mb` with no trailer-shaped line below the
title, whose second line is blank or absent, and whose post-title blank
lines each precede a nonempty line and whose nonempty post-title lines end
in non-whitespace, parses to an empty trailer map and a body equal to the
message stripped.  (The unamended claim is refuted by
`C8_counterexample`.) -/
theorem C8_roundtrip_amended
    (ma : String) (pa : Msg.Message)
    (hparse : Msg.from_message false ma = some pa)
    (hml : ∀ l ∈ pySplitlines ma, l = "" ∨ Msg.endsNonWS l = true)
    (hfirst : Msg.startsNonWS ((pySplitlines ma).headD "") = true)
    (mb : String) (hmb : mb ≠ "")
    (hnt : ∀ l ∈ (pySplitlines mb).drop 1, Msg.headerMatch l = none)
    (hsecond : ((pySplitlines mb).drop 1).headD "" = "")
    (hblanks : Msg.blanksOKs ((pySplitlines mb).drop 1) = true)
    (hbends : ∀ l ∈ (pySplitlines mb).drop 1, l = "" ∨ Msg.endsNonWS l = true) :
    (Msg.from_message false (Msg.serialize pa)).map Msg.Message.body
        = some pa.body ∧
    Msg.from_message false mb = some ⟨pyStrip mb, []⟩ := by
  constructor
  · -- Part A: round trip of the body through serialize/parse
    cases hsp : pySplitlines ma with
    | nil =>
      unfold Msg.from_message at hparse
      rw [hsp] at hparse
      exact Option.noConfusion hparse
    | cons title R =>
      have hpa : pa = Msg.passemble title
          (List.foldl (Msg.pstep false) Msg.pinit R.reverse) := by
        unfold Msg.from_message at hparse
        rw [hsp] at hparse
        dsimp only at hparse
        have h1 := (Option.some.inj hparse).symm
        rw [h1]
        unfold Msg.fromLines
        rfl
      set st1 : Msg.PSt := List.foldl (Msg.pstep false) Msg.pinit R.reverse
        with hst1def
      have hinv : Msg.PInv st1 := by
        rw [hst1def]
        apply Msg.foldl_pstep_PInv R.reverse Msg.pinit Msg.pinit_PInv
        intro l hl
        have hlm : l ∈ pySplitlines ma := by
          rw [hsp]
          exact List.mem_cons_of_mem _ (List.mem_reverse.mp hl)
        exact ⟨hml l hlm, pySplitlines_lfFree ma l hlm⟩
      obtain ⟨hms, hiff, hgood, hblf, hhok⟩ := hinv
      have hstartsT : Msg.startsNonWS title = true := by
        rw [hsp] at hfirst
        simpa using hfirst
      have htne : title ≠ "" := by
        intro h
        rw [h] at hstartsT
        exact absurd hstartsT (by decide)
      have htend : Msg.endsNonWS title = true := by
        rcases hml title (by rw [hsp]; exact List.mem_cons_self _ _) with h | h
        · exact absurd h htne
        · exact h
      have htlf : '\n' ∉ title.data :=
        pySplitlines_lfFree ma title (by rw [hsp]; exact List.mem_cons_self _ _)
      have hmain : ∃ D : List String,
          pa.body = pyStrip (joinNL (title :: D)) ∧
          Msg.headNonEmpty D = false ∧
          (D = [] ∨ ∃ X, D = "" :: X ∧ Msg.headNonEmpty X = true ∧
            Msg.goodRev X = true) ∧
          (∀ l ∈ D, '\n' ∉ l.data) ∧
          pyStrip (joinNL (title :: D)) = joinNL (title :: D) := by
        cases hrv : st1.bodyRev with
        | nil =>
          refine ⟨[], ?_, rfl, Or.inl rfl, by simp, ?_⟩
          · rw [hpa]
            unfold Msg.passemble Msg.Message.make
            dsimp only
            rw [hrv]
            rw [if_neg (by simp [Msg.headNonEmpty])]
          · apply Msg.pyStrip_joinNL_of_ends
            · simp
            · simpa using hstartsT
            · simpa using htend
        | cons b t =>
          rw [hrv] at hgood hblf
          by_cases hhne : Msg.headNonEmpty (b :: t) = true
          · refine ⟨"" :: b :: t, ?_, by simp [Msg.headNonEmpty], ?_, ?_, ?_⟩
            · rw [hpa]
              unfold Msg.passemble Msg.Message.make
              dsimp only
              rw [hrv]
              rw [if_pos hhne]
            · exact Or.inr ⟨b :: t, rfl, hhne, hgood⟩
            · intro l hl
              rcases List.mem_cons.mp hl with rfl | hl
              · simp
              · exact hblf l hl
            · apply Msg.pyStrip_joinNL_of_ends
              · simp
              · simpa using hstartsT
              · rw [Msg.headD_reverse_cons title ("" :: b :: t) (by simp)]
                rw [Msg.headD_reverse_cons "" (b :: t) (by simp)]
                exact Msg.goodRev_last (b :: t) hgood (by simp)
          · have hb : b = "" := by
              simpa [Msg.headNonEmpty] using hhne
            subst hb
            cases t with
            | nil => simp [Msg.goodRev] at hgood
            | cons c t' =>
              simp only [Msg.goodRev, if_pos rfl, Bool.and_eq_true] at hgood
              refine ⟨"" :: c :: t', ?_, by simp [Msg.headNonEmpty], ?_, ?_, ?_⟩
              · rw [hpa]
                unfold Msg.passemble Msg.Message.make
                dsimp only
                rw [hrv]
                rw [if_neg hhne]
              · exact Or.inr ⟨c :: t', rfl, hgood.1, hgood.2⟩
              · intro l hl
                exact hblf l hl
              · apply Msg.pyStrip_joinNL_of_ends
                · simp
                · simpa using hstartsT
                · rw [Msg.headD_reverse_cons title ("" :: c :: t') (by simp)]
                  rw [Msg.headD_reverse_cons "" (c :: t') (by simp)]
                  exact Msg.goodRev_last (c :: t') hgood.2 (by simp)
      obtain ⟨D, hpab, hDhne, hDshape, hDlf, hstrip⟩ := hmain
      have hpah : pa.headers = st1.headersRev := by
        rw [hpa]
        rfl
      have hHOK : Msg.HOK pa.headers := by
        rw [hpah]
        exact hhok
      have hser : ∃ S : List String,
          Msg.serialize pa = joinNL ((title :: D) ++ S) ++ "\n" ∧
          (∀ l ∈ S, l = "" ∨ ∃ k v, Msg.headerMatch l = some (k, v)) ∧
          (∀ l ∈ S, '\n' ∉ l.data) := by
        by_cases hH1 : pa.headers = []
        · refine ⟨[], ?_, by simp, by simp⟩
          unfold Msg.serialize
          rw [if_pos hH1, hpab, hstrip, List.append_nil]
        · have hwf := Msg.renderLines_wf pa.headers hHOK
          by_cases hRLe : Msg.renderLines pa.headers = []
          · refine ⟨["", ""], ?_, ?_, ?_⟩
            · unfold Msg.serialize
              rw [if_neg hH1, hpab, hstrip, hRLe]
              rw [Msg.joinNL_append (title :: D) ["", ""] (by simp) (by simp)]
              apply String.ext
              simp [String.data_append,
                show (joinNL [] : String) = "" from rfl,
                show (joinNL ["", ""] : String) = "\n" from rfl,
                show ("\n\n" : String).data = ['\n', '\n'] from rfl,
                show ("\n" : String).data = ['\n'] from rfl,
                show ("" : String).data = ([] : List Char) from rfl]
            · intro l hl
              left
              rcases List.mem_cons.mp hl with h | h
              · exact h
              · simpa using h
            · intro l hl
              rcases List.mem_cons.mp hl with h | h
              · subst h
                simp
              · simp only [List.mem_singleton] at h
                subst h
                simp
          · refine ⟨"" :: Msg.renderLines pa.headers, ?_, ?_, ?_⟩
            · unfold Msg.serialize
              rw [if_neg hH1, hpab, hstrip]
              rw [Msg.joinNL_append (title :: D) ("" :: Msg.renderLines pa.headers)
                (by simp) (by simp)]
              rw [show ("" :: Msg.renderLines pa.headers) =
                [""] ++ Msg.renderLines pa.headers from rfl]
              rw [Msg.joinNL_append [""] _ (by simp) hRLe]
              apply String.ext
              simp [String.data_append,
                show (joinNL [""] : String) = "" from rfl,
                show ("\n\n" : String).data = ['\n', '\n'] from rfl,
                show ("\n" : String).data = ['\n'] from rfl,
                show ("" : String).data = ([] : List Char) from rfl]
            · intro l hl
              rcases List.mem_cons.mp hl with h | h
              · exact Or.inl h
              · exact Or.inr (hwf l h).1
            · intro l hl
              rcases List.mem_cons.mp hl with h | h
              · subst h
                simp
              · exact (hwf l h).2
      obtain ⟨S, hserEq, hSheads, hSlf⟩ := hser
      have hlines : pySplitlines (Msg.serialize pa) = title :: (D ++ S) := by
        rw [hserEq, ← List.cons_append]
        apply Msg.pySplitlines_join_newline
        · simp
        · intro l hl
          rcases List.mem_append.mp hl with hl | hl
          · rcases List.mem_cons.mp hl with rfl | hl
            · exact htlf
            · exact hDlf l hl
          · exact hSlf l hl
      obtain ⟨i2, H2, hscan⟩ := Msg.reparse_scan D S hDshape hSheads
      unfold Msg.from_message
      rw [hlines]
      dsimp only
      rw [Option.map_some']
      congr 1
      unfold Msg.fromLines
      simp only [List.drop_succ_cons, List.drop_zero]
      rw [hscan]
      unfold Msg.passemble Msg.Message.make
      dsimp only
      rw [if_neg (by rw [hDhne]; simp)]
      exact hpab.symm
  · -- Part B: no trailer-shaped lines below the title
    cases hsp : pySplitlines mb with
    | nil =>
      exact absurd ((Msg.pySplitlines_eq_nil mb).mp hsp) hmb
    | cons title R =>
      rw [hsp] at hnt hsecond hblanks hbends
      simp only [List.drop_succ_cons, List.drop_zero] at hnt hsecond hblanks hbends
      unfold Msg.from_message
      rw [hsp]
      dsimp only
      congr 1
      unfold Msg.fromLines
      simp only [List.drop_succ_cons, List.drop_zero]
      cases R with
      | nil =>
        unfold Msg.passemble Msg.Message.make Msg.pinit
        simp only [List.reverse_nil, List.foldl_nil]
        rw [if_neg (by simp [Msg.headNonEmpty])]
        have hj : joinNL [title] = joinNL (pySplitlines mb) := by
          rw [hsp]
        rw [hj, Msg.pyStrip_join_splitlines]
      | cons l R' =>
        have hle : l = "" := by
          simpa using hsecond
        subst hle
        simp only [Msg.blanksOKs, Bool.and_eq_true] at hblanks
        have hbl1 : Msg.headNonEmpty R' = true := by
          simpa using hblanks.1
        have hR'ne : R' ≠ [] := by
          cases R' with
          | nil => simp [Msg.headNonEmpty] at hbl1
          | cons a b => simp
        have hgoodR' : Msg.goodRev R' = true := by
          apply Msg.goodRev_of_plain R'
          · intro x hx
            exact hnt x (List.mem_cons_of_mem _ hx)
          · intro x hx
            exact hbends x (List.mem_cons_of_mem _ hx)
          · exact hblanks.2
        rw [List.reverse_cons, List.foldl_append]
        rw [show Msg.pinit = (⟨true, none, [], []⟩ : Msg.PSt) from rfl]
        rw [Msg.replay_scan R' hgoodR' hR'ne []]
        rw [List.foldl_cons, List.foldl_nil]
        rw [Msg.pstep_false_eval _ rfl, if_pos rfl]
        dsimp only
        rw [if_pos ⟨by simp, hbl1⟩]
        unfold Msg.passemble Msg.Message.make
        dsimp only
        rw [if_neg (by simp [Msg.headNonEmpty])]
        have hj : joinNL (title :: "" :: R') = joinNL (pySplitlines mb) := by
          rw [hsp]
        rw [hj, Msg.pyStrip_join_splitlines]

end Runbot

namespace Runbot

/-- Witness for `C8_roundtrip_amended`: the message `"T\n\nA: b"` (one
trailer) round-trips its body `"T"` through serialize/parse, and the
trailer-free message `"T\n\npara"` parses to no trailers and its stripped
self as body. -/
theorem C8_roundtrip_amended_witness :
    (Msg.from_message false (Msg.serialize ⟨"T", [("A", "b")]⟩)).map
        Msg.Message.body = some "T" ∧
    Msg.from_message false "T\n\npara" = some ⟨pyStrip "T\n\npara", []⟩ :=
  C8_roundtrip_amended "T\n\nA: b" ⟨"T", [("A", "b")]⟩ (by decide) (by decide)
    (by decide) "T\n\npara" (by decide) (by decide) (by decide) (by decide)
    (by decide)

end Runbot
